import Mathlib

/-! # musical-leds: a shallow embedding of `musical_leds.c`

The C program drives five WS2812 strips from an RP2040.  This file embeds the
pure parts of the program (pixel rule, zone renderer, bit-plane transposer,
hex parsing), the command loop of the second core as a function on an explicit
console state, and the output pipeline as a step relation.

Conventions of the embedding:

* `uint32_t`, `uint16_t`, `uint8_t` and `char` values are natural numbers;
  a reduction `% 2 ^ w` is written wherever the C arithmetic or a narrowing
  assignment can wrap.  `char` is unsigned on the ARM EABI target of the
  Pico SDK, so a `char` holds a value in `0 .. 255`.
* The fixed-size global arrays (`pixels`, `framebuffers`, `zones`) are functions
  from `Fin n`, so their extent is part of the type.  A write whose index is
  computed at run time goes through a checked write that yields `none` when
  the index is outside the array.
* A `char *` argument is a function `Nat → Nat` (the pointer's element at each
  offset); `command + 1` is the function shifted by one.
-/

namespace MusicalLeds

/-! ## Constants and data model -/

/-- The constant `#define LED_STRIPS 5`. -/
abbrev LED_STRIPS : Nat := 5

/-- The constant `#define MAX_STRIP_LENGTH 300`. -/
abbrev MAX_STRIP_LENGTH : Nat := 300

/-- The constant `#define MAX_ZONES_PER_STRIP 24`. -/
abbrev MAX_ZONES_PER_STRIP : Nat := 24

/-- The record `typedef struct { uint32_t bit_planes[24]; } pixel_plane_t;`, its
words stored most-significant colour bit first. -/
structure pixel_plane_t where
  bit_planes : Fin 24 → Nat

/-- The array type of `uint32_t pixels[LED_STRIPS][MAX_STRIP_LENGTH]`. -/
abbrev PixelBuffer := Fin LED_STRIPS → Fin MAX_STRIP_LENGTH → Nat

/-- The array type of `pixel_plane_t framebuffer[MAX_STRIP_LENGTH]`. -/
abbrev FrameBuffer := Fin MAX_STRIP_LENGTH → pixel_plane_t

/-- The function `urgb_u32`: the three 8-bit channels packed into one 32-bit word. -/
def urgb_u32 (r g b : Nat) : Nat :=
  (((r % 2 ^ 8) <<< 16) ||| ((g % 2 ^ 8) <<< 8)) ||| (b % 2 ^ 8)

/-! ## Bit-plane transposer -/

/-- The statement `if (pixels[n_strip][pixel] & (0x800000 >> bit))
framebuffer[pixel].bit_planes[bit] |= 1 << n_strip;` -/
def translate_bit (pixels : PixelBuffer) (pixel : Fin MAX_STRIP_LENGTH) (bit : Fin 24)
    (framebuffer : FrameBuffer) (n_strip : Fin LED_STRIPS) : FrameBuffer :=
  if pixels n_strip pixel &&& (0x800000 >>> bit.val) ≠ 0 then
    Function.update framebuffer pixel
      ⟨Function.update (framebuffer pixel).bit_planes bit
        (((framebuffer pixel).bit_planes bit ||| (1 <<< n_strip.val)) % 2 ^ 32)⟩
  else framebuffer

/-- The function `translate_to_framebuffer`: `memset` of the target, then the three nested
`for` loops over pixel position, colour bit and strip. -/
def translate_to_framebuffer (pixels : PixelBuffer) (_framebuffer : FrameBuffer) :
    FrameBuffer :=
  let cleared : FrameBuffer := fun _ => ⟨fun _ => 0⟩
  (List.finRange MAX_STRIP_LENGTH).foldl
    (fun fb pixel =>
      (List.finRange 24).foldl
        (fun fb bit => (List.finRange LED_STRIPS).foldl (translate_bit pixels pixel bit) fb)
        fb)
    cleared

/-- Inverse transposition, following the specification's wording: the 24-bit
value of strip `s` at position `p` is rebuilt from the bit-plane form, bit
`23 - b` of the pixel being bit `s` of word `b`. -/
def inverse_transpose (framebuffer : FrameBuffer) : PixelBuffer :=
  fun s p =>
    (List.finRange 24).foldl
      (fun acc b =>
        acc ||| ((((framebuffer p).bit_planes b >>> s.val) &&& 1) <<< (23 - b.val)))
      0

/-- The word that the strip loop leaves in one bit-plane slot: the loop body of
`translate_bit` seen from the slot it writes. -/
def strip_word (pixels : PixelBuffer) (pixel : Fin MAX_STRIP_LENGTH) (bit : Fin 24)
    (l : List (Fin LED_STRIPS)) (acc : Nat) : Nat :=
  l.foldl
    (fun w n_strip =>
      if pixels n_strip pixel &&& (0x800000 >>> bit.val) ≠ 0 then
        (w ||| (1 <<< n_strip.val)) % 2 ^ 32
      else w)
    acc

/-! ## Zone table and renderer -/

/-- The record `typedef struct { uint32_t effect; uint16_t off; uint16_t on; } led_zone_t;`
(the field `on` is spelled `on_`, `on` being a keyword of Lean). -/
structure led_zone_t where
  effect : Nat
  off : Nat
  on_ : Nat
  deriving DecidableEq

/-- The array type of `led_zone_t zones[LED_STRIPS][MAX_ZONES_PER_STRIP]`. -/
abbrev ZoneTable := Fin LED_STRIPS → Fin MAX_ZONES_PER_STRIP → led_zone_t

/-- The field widths of `led_zone_t`: `effect` is a `uint32_t`, `off` and `on`
are `uint16_t`. -/
def ZoneTable.wf (zones : ZoneTable) : Prop :=
  ∀ s k, (zones s k).effect < 2 ^ 32 ∧ (zones s k).off < 2 ^ 16 ∧ (zones s k).on_ < 2 ^ 16

/-- The function `render_pixel`: a code with a zero top byte is a literal colour, any other
code renders `urgb_u32(0xff, 0, 0)`.  The frame index and the offset are
unused by the C function as well. -/
def render_pixel (_t : Int) (_offset : Nat) (effect : Nat) : Nat :=
  if effect &&& 0xff000000 = 0 then effect else urgb_u32 0xff 0 0

/-- The assignment `pixels[strip][idx] = v` with a run-time index: `none` when
`idx` is outside the row. -/
def write_pixel (pixels : PixelBuffer) (strip : Fin LED_STRIPS) (idx : Nat) (v : Nat) :
    Option PixelBuffer :=
  if h : idx < MAX_STRIP_LENGTH then
    some (Function.update pixels strip (Function.update (pixels strip) ⟨idx, h⟩ v))
  else none

/-- The loop `for (uint32_t offset = 0; offset < zone.on && pixel + offset <
MAX_STRIP_LENGTH; offset++) pixels[strip][pixel + offset] = render_pixel(t,
offset, &zone.effect);` started at `offset`, with `pixel + offset` and
`offset++` in 32-bit arithmetic.  The first argument bounds the number of
loop tests; `none` is an out-of-range write or an exhausted bound. -/
def render_run (t : Int) (strip : Fin LED_STRIPS) (zone : led_zone_t) (pixel : Nat) :
    Nat → Nat → PixelBuffer → Option PixelBuffer
  | 0, _, _ => none
  | fuel + 1, offset, pixels =>
    if offset < zone.on_ ∧ (pixel + offset) % 2 ^ 32 < MAX_STRIP_LENGTH then
      (write_pixel pixels strip ((pixel + offset) % 2 ^ 32)
        (render_pixel t offset zone.effect)).bind
        (render_run t strip zone pixel fuel ((offset + 1) % 2 ^ 32))
    else some pixels

/-- The body of the zone loop on the pair (cursor `pixel`, pixel buffer):
`pixel += zone.off`, the run of `zone.on` pixels, `pixel += zone.on`. -/
def render_zone (t : Int) (zones_copy : ZoneTable) (strip : Fin LED_STRIPS)
    (st : Option (Nat × PixelBuffer)) (zone_n : Fin MAX_ZONES_PER_STRIP) :
    Option (Nat × PixelBuffer) :=
  st.bind fun st =>
    let zone := zones_copy strip zone_n
    let pixel := (st.1 + zone.off) % 2 ^ 32
    (render_run t strip zone pixel (zone.on_ + 1) 0 st.2).map
      fun pixels => ((pixel + zone.on_) % 2 ^ 32, pixels)

/-- The body of the strip loop: the cursor starts at 0 and the zone slots are
walked in order. -/
def render_strip (t : Int) (zones_copy : ZoneTable) (pixels : Option PixelBuffer)
    (strip : Fin LED_STRIPS) : Option PixelBuffer :=
  pixels.bind fun pixels =>
    ((List.finRange MAX_ZONES_PER_STRIP).foldl (render_zone t zones_copy strip)
      (some (0, pixels))).map Prod.snd

/-- The function `render_zones`: `memset` of the pixel buffer, snapshot of the zone table,
then the strip loop.  The second argument is the shared zone table at the
time of the copy, the third the pixel buffer left by the previous frame. -/
def render_zones (t : Int) (zones : ZoneTable) (_pixels : PixelBuffer) :
    Option PixelBuffer :=
  let pixels : PixelBuffer := fun _ _ => 0
  let zones_copy : ZoneTable := zones
  (List.finRange LED_STRIPS).foldl (render_strip t zones_copy) (some pixels)

/-- The cursor before zone slot `k` as the specification words it: the sum of
`off + on` over the slots `j < k`, with no reduction. -/
def zone_cursor (zones : ZoneTable) (s : Fin LED_STRIPS) : Nat → Nat
  | 0 => 0
  | k + 1 =>
    zone_cursor zones s k +
      (if h : k < MAX_ZONES_PER_STRIP then (zones s ⟨k, h⟩).off + (zones s ⟨k, h⟩).on_ else 0)

/-- The first position of zone slot `k`: the cursor before it plus its gap. -/
def zone_start (zones : ZoneTable) (s : Fin LED_STRIPS) (k : Fin MAX_ZONES_PER_STRIP) : Nat :=
  zone_cursor zones s k.val + (zones s k).off

/-- Position `p` lies in the lit range `[start_k, start_k + on_k)` of slot `k`. -/
def in_zone (zones : ZoneTable) (s : Fin LED_STRIPS) (k : Fin MAX_ZONES_PER_STRIP)
    (p : Nat) : Prop :=
  zone_start zones s k ≤ p ∧ p < zone_start zones s k + (zones s k).on_

instance (zones : ZoneTable) (s : Fin LED_STRIPS) (k : Fin MAX_ZONES_PER_STRIP) (p : Nat) :
    Decidable (in_zone zones s k p) := by
  unfold in_zone; exact inferInstance

/-- A table for concrete checks: every slot has a gap of 3, a run of 4 and the
static colour `0x00FF8010`; a strip's 24 slots cover 168 positions. -/
def zones_short : ZoneTable := fun _ _ => ⟨0x00FF8010, 3, 4⟩

/-- A table for concrete checks: slot 0 of every strip starts at position 290
and runs for 65535 pixels, across the end of the row; every other slot has the
largest 16-bit gap and run.  All effect codes are animated. -/
def zones_long : ZoneTable := fun _ k =>
  if k.val = 0 then ⟨0x01000000, 290, 65535⟩ else ⟨0x01000000, 65535, 65535⟩

/-- A table for concrete checks: on every strip slot 0 is a green run on
`[10, 30)`, slot 1 is an animated run of 100 pixels that starts at 290 and
crosses the end of the row, and the other slots are short blue runs. -/
def zones_clip : ZoneTable := fun _ k =>
  if k.val = 0 then ⟨0x00FF00, 10, 20⟩
  else if k.val = 1 then ⟨0x01000000, 260, 100⟩
  else ⟨0x0000FF, 5, 5⟩

/-! ## Hex parsing -/

/-- The digit conversion inside the loop of `hex_to_uint`: `c -= '0'`,
`c = c - 'a' + 10`, `c = c - 'A' + 10`, and any other character left as it
is. -/
def hex_digit (c : Nat) : Nat :=
  if '0'.toNat ≤ c ∧ c ≤ '9'.toNat then (c - '0'.toNat) % 2 ^ 8
  else if 'a'.toNat ≤ c ∧ c ≤ 'f'.toNat then (c - 'a'.toNat + 10) % 2 ^ 8
  else if 'A'.toNat ≤ c ∧ c ≤ 'F'.toNat then (c - 'A'.toNat + 10) % 2 ^ 8
  else c

/-- The function `hex_to_uint(s, len)`: `out |= (uint32_t) (c) << (4 * (len - i - 1))` for
`i` from 0 to `len - 1`, the shift in 32-bit arithmetic. -/
def hex_to_uint (s : Nat → Nat) (len : Nat) : Nat :=
  (List.range len).foldl
    (fun out i => out ||| ((hex_digit (s i) <<< (4 * (len - i - 1))) % 2 ^ 32))
    0

/-- The function `char_to_byte`: note the upper bounds `'z'` of the second and third
tests. -/
def char_to_byte (c : Nat) : Nat :=
  if '0'.toNat ≤ c ∧ c ≤ '9'.toNat then (c - '0'.toNat) % 2 ^ 8
  else if 'a'.toNat ≤ c ∧ c ≤ 'z'.toNat then (c - 'a'.toNat + 10) % 2 ^ 8
  else if 'A'.toNat ≤ c ∧ c ≤ 'z'.toNat then (c - 'A'.toNat + 10) % 2 ^ 8
  else 0

/-! ## Serial console and command loop -/

/-- The serial link as seen by the second core: the bytes still to be
received and the bytes sent so far. -/
structure Console where
  input : List Nat
  output : List Nat

/-- The call `getchar()`: the next received byte; `none` while no byte is pending, where
the C call blocks. -/
def getchar (con : Console) : Option (Nat × Console) :=
  match con.input with
  | [] => none
  | c :: rest => some (c, { con with input := rest })

/-- The call `putchar(c)`: sends `(unsigned char) c`. -/
def putchar (c : Nat) (con : Console) : Console :=
  { con with output := con.output ++ [c % 2 ^ 8] }

/-- The call `puts(s)`: sends the characters of `s` and a newline. -/
def puts (s : String) (con : Console) : Console :=
  { con with output := con.output ++ (s.toList.map Char.toNat ++ ['\n'.toNat]) }

/-- The function `getchar2`: reads a byte and echoes it, a carriage return being echoed with
an added newline. -/
def getchar2 (con : Console) : Option (Nat × Console) :=
  match getchar con with
  | none => none
  | some (c, con) =>
    let con := putchar c con
    let con := if c = '\r'.toNat then putchar '\n'.toNat con else con
    some (c, con)

/-- The loop of `get_line` from index `i` with `n = max - i` iterations left:
the result is the final `i`, the buffer and the console. -/
def get_line_from (buf : Nat → Nat) (i : Nat) : Nat → Console →
    Option (Nat × (Nat → Nat) × Console)
  | 0, con => some (i, buf, con)
  | n + 1, con =>
    match getchar2 con with
    | none => none
    | some (c, con) =>
      let c := c % 2 ^ 8
      if c = '\n'.toNat ∨ c = '\r'.toNat then some (i, buf, con)
      else get_line_from (Function.update buf i c) (i + 1) n con

/-- The function `get_line(buf, max)`. -/
def get_line (buf : Nat → Nat) (max : Nat) (con : Console) :
    Option (Nat × (Nat → Nat) × Console) :=
  get_line_from buf 0 max con

/-- The loop of `get_chars_silent` from index `i` with `n = total - i`
iterations left. -/
def get_chars_silent_from (buf : Nat → Nat) (i : Nat) : Nat → Console →
    Option ((Nat → Nat) × Console)
  | 0, con => some (buf, con)
  | n + 1, con =>
    match getchar con with
    | none => none
    | some (c, con) => get_chars_silent_from (Function.update buf i (c % 2 ^ 8)) (i + 1) n con

/-- The function `get_chars_silent(buf, total)`. -/
def get_chars_silent (buf : Nat → Nat) (total : Nat) (con : Console) :
    Option ((Nat → Nat) × Console) :=
  get_chars_silent_from buf 0 total con

/-- The state of `core1_entry` between two iterations of its loop: the shared
zone table, the local buffer `char command[8]`, and the console. -/
structure Core1 where
  zones : ZoneTable
  command : Nat → Nat
  con : Console

/-- The cases of `switch (command[0])` that select a field, with their
fall-through: the values of `text`, `value_size` and `field`. -/
def select_field (c : Nat) : Option (Bool × Nat × Nat) :=
  if c = 'e'.toNat then some (true, 4, 2)
  else if c = 'E'.toNat then some (false, 4, 2)
  else if c = 'l'.toNat then some (true, 2, 1)
  else if c = 'L'.toNat then some (false, 2, 1)
  else if c = 'd'.toNat then some (true, 2, 0)
  else if c = 'D'.toNat then some (false, 2, 0)
  else none

/-- The `if (text)` branch: echo of the command letter, the index line, the
value line.  The first component is `none` when the branch ends in `continue`,
and the triple `(strip, zone, value)` otherwise. -/
def read_text (value_size : Nat) (command : Nat → Nat) (con : Console) :
    Option (Option (Nat × Nat × Nat) × (Nat → Nat) × Console) :=
  let con := putchar (command 0) con
  match get_line command 3 con with
  | none => none
  | some (i, command, con) =>
    if i < 3 then some (none, command, puts "Command too short\n" con)
    else
      let strip := char_to_byte (command 0)
      let zone := hex_to_uint (fun k => command (k + 1)) 2 % 2 ^ 8
      match get_line command (value_size * 2) con with
      | none => none
      | some (i, command, con) =>
        let value := hex_to_uint command i
        let con := if i = value_size * 2 then putchar '\n'.toNat con else con
        some (some (strip, zone, value), command, con)

/-- The `else` branch: strip byte, zone byte, `value_size` raw bytes, and the
big-endian value shifted down to its width. -/
def read_binary (value_size : Nat) (command : Nat → Nat) (con : Console) :
    Option ((Nat × Nat × Nat) × (Nat → Nat) × Console) :=
  match getchar con with
  | none => none
  | some (c, con) =>
    let strip := c % 2 ^ 8
    match getchar con with
    | none => none
    | some (c, con) =>
      let zone := c % 2 ^ 8
      match get_chars_silent command value_size con with
      | none => none
      | some (command, con) =>
        let value :=
          ((((command 0 <<< 24) % 2 ^ 32) ||| ((command 1 <<< 16) % 2 ^ 32)) |||
            ((command 2 <<< 8) % 2 ^ 32)) ||| command 3
        let value := value >>> ((4 - value_size) * 8)
        some ((strip, zone, value), command, con)

/-- The two bounds checks and the assignment under the lock.  The stores narrow
`value` to the width of the field. -/
def store_field (zones : ZoneTable) (text : Bool) (field strip zone value : Nat)
    (con : Console) : ZoneTable × Console :=
  if hs : strip ≥ LED_STRIPS then
    (zones, if text then puts "Strip count too high\n" con else con)
  else if hz : zone ≥ MAX_ZONES_PER_STRIP then
    (zones, if text then puts "Zone count too high\n" con else con)
  else
    let s : Fin LED_STRIPS := ⟨strip, Nat.lt_of_not_ge hs⟩
    let z : Fin MAX_ZONES_PER_STRIP := ⟨zone, Nat.lt_of_not_ge hz⟩
    let old := zones s z
    let new : led_zone_t :=
      if field = 0 then { old with off := value % 2 ^ 16 }
      else if field = 1 then { old with on_ := value % 2 ^ 16 }
      else if field = 2 then { old with effect := value % 2 ^ 32 }
      else old
    (Function.update zones s (Function.update (zones s) z new), con)

/-- One iteration of the `while (1)` loop of `core1_entry`; `none` when the
input runs out before the iteration ends. -/
def core1_iter (st : Core1) : Option Core1 :=
  match getchar st.con with
  | none => none
  | some (c, con) =>
    let command := Function.update st.command 0 (c % 2 ^ 8)
    if command 0 = '\n'.toNat ∨ command 0 = '\r'.toNat then
      some { zones := st.zones, command := command, con := putchar '\n'.toNat con }
    else if command 0 = 'r'.toNat then
      some { zones := fun _ _ => ⟨0, 0, 0⟩, command := command,
             con := putchar '\n'.toNat (putchar (command 0) con) }
    else if command 0 = 'R'.toNat then
      some { zones := fun _ _ => ⟨0, 0, 0⟩, command := command, con := con }
    else
      match select_field (command 0) with
      | none =>
        some { zones := st.zones, command := command,
               con := puts "\nInvalid command\n" con }
      | some (text, value_size, field) =>
        if text then
          match read_text value_size command con with
          | none => none
          | some (none, command, con) =>
            some { zones := st.zones, command := command, con := con }
          | some (some (strip, zone, value), command, con) =>
            let r := store_field st.zones text field strip zone value con
            some { zones := r.1, command := command, con := r.2 }
        else
          match read_binary value_size command con with
          | none => none
          | some ((strip, zone, value), command, con) =>
            let r := store_field st.zones text field strip zone value con
            some { zones := r.1, command := command, con := r.2 }

/-! ## Specification-side notions for the command protocol -/

/-- A byte that `get_line` stores: a `char` value other than the two line
terminators. -/
def line_char (c : Nat) : Prop := c < 256 ∧ c ≠ '\n'.toNat ∧ c ≠ '\r'.toNat

instance (c : Nat) : Decidable (line_char c) := by
  unfold line_char; exact inferInstance

/-- The buffer after the bytes of `l` were stored from index `i` on. -/
def store_chars (buf : Nat → Nat) (i : Nat) : List Nat → (Nat → Nat)
  | [] => buf
  | c :: l => store_chars (Function.update buf i c) (i + 1) l

/-- The echo that `getchar2` sends for a line terminator. -/
def terminator_echo (c : Nat) : List Nat :=
  if c = '\r'.toNat then ['\r'.toNat, '\n'.toNat] else [c]

/-- A hexadecimal digit character, of either case. -/
def is_hex_digit (c : Nat) : Prop :=
  ('0'.toNat ≤ c ∧ c ≤ '9'.toNat) ∨ ('a'.toNat ≤ c ∧ c ≤ 'f'.toNat) ∨
    ('A'.toNat ≤ c ∧ c ≤ 'F'.toNat)

instance (c : Nat) : Decidable (is_hex_digit c) := by
  unfold is_hex_digit; exact inferInstance

/-- The value `0 .. 15` of a hexadecimal digit character, as the
specification reads it. -/
def hex_digit_value (c : Nat) : Nat :=
  if c ≤ '9'.toNat then c - '0'.toNat
  else if c ≤ 'F'.toNat then c - 'A'.toNat + 10
  else c - 'a'.toNat + 10

/-- The numeric value of a string of hexadecimal digits, most significant
digit first (0 for the empty string). -/
def hex_value (l : List Nat) : Nat :=
  l.foldl (fun acc c => 16 * acc + hex_digit_value c) 0

/-! ## Output pipeline

The frame loop of `main`, the interrupt handler `dma_complete_handler` and the
alarm callback `reset_delay_complete` are three actors over a shared state.
Each statement of the frame loop and each handler body is one atomic step.
The DMA channel and the alarm pool belong to the SDK and the hardware; they
are modelled by what the program observes of them: a transfer in flight on
the instance whose address was given to `dma_channel_set_read_addr`, and a
pending one-shot alarm (`reset_delay_alarm_id != 0`). -/

/-- The state of one frame buffer instance in the specification's state
machine. -/
inductive BufState where
  | Idle
  | Streaming
  | QuietPeriod
  deriving DecidableEq

/-- The statement of the `while (1)` loop of `main` that runs next. -/
inductive MainPc where
  /-- before `render_zones(t); translate_to_framebuffer(pixels, framebuffers[current_framebuffer]);` -/
  | transpose
  /-- before `sem_acquire_blocking(&reset_delay_complete_sem);` -/
  | acquire
  /-- before `output_strips_dma(framebuffers[current_framebuffer]);` -/
  | start
  /-- before `current_framebuffer ^= 1; t++;` -/
  | flip
  deriving DecidableEq

/-- The shared state of the output pipeline.  `dma` is the instance read by the
transfer in flight, if any.  `alarm` is the pending reset-delay alarm, if any,
tagged with the instance whose transfer armed it. -/
structure Pipeline where
  pc : MainPc
  t : Nat
  current_framebuffer : Fin 2
  sem : Nat
  dma : Option (Fin 2)
  alarm : Option (Fin 2)
  deriving DecidableEq

/-- The state after `sem_init(&reset_delay_complete_sem, 1, 1)`, `dma_init` and
`uint t = 0; uint current_framebuffer = 0;`. -/
def Pipeline.init : Pipeline :=
  { pc := .transpose, t := 0, current_framebuffer := 0, sem := 1, dma := none, alarm := none }

/-- The three actors. -/
inductive Event where
  /-- the frame loop runs its next statement -/
  | main
  /-- the transfer in flight ends and `dma_complete_handler` runs -/
  | dma_complete
  /-- the pending alarm expires and `reset_delay_complete` runs -/
  | reset_delay_complete
  deriving DecidableEq

/-- One step of an actor; `none` when the actor cannot move: the frame loop
blocked in `sem_acquire_blocking`, no transfer in flight, no alarm pending.
`sem_release` does not raise the count above `max_permits = 1`. -/
def step (e : Event) (st : Pipeline) : Option Pipeline :=
  match e with
  | .main =>
    match st.pc with
    | .transpose => some { st with pc := .acquire }
    | .acquire =>
      if 0 < st.sem then some { st with pc := .start, sem := st.sem - 1 } else none
    | .start => some { st with pc := .flip, dma := some st.current_framebuffer }
    | .flip =>
      some { st with pc := .transpose,
                     current_framebuffer := st.current_framebuffer ^^^ 1,
                     t := (st.t + 1) % 2 ^ 32 }
  | .dma_complete =>
    match st.dma with
    | none => none
    | some i => some { st with dma := none, alarm := some i }
  | .reset_delay_complete =>
    match st.alarm with
    | none => none
    | some _ => some { st with alarm := none, sem := if st.sem < 1 then st.sem + 1 else st.sem }

/-- A run of the pipeline along a schedule of events. -/
def run : List Event → Pipeline → Option Pipeline
  | [], st => some st
  | e :: es, st => (step e st).bind (run es)

/-- The state of instance `i` read off the pipeline state: `Streaming` while the
transfer in flight reads it, `QuietPeriod` while the alarm armed by its
transfer is pending, `Idle` otherwise. -/
def instance_state (st : Pipeline) (i : Fin 2) : BufState :=
  if st.dma = some i then .Streaming
  else if st.alarm = some i then .QuietPeriod
  else .Idle

/-- The number of places that hold the single transfer token: the semaphore, the
frame loop between acquire and start, the DMA channel, the alarm. -/
def tokens (st : Pipeline) : Nat :=
  st.sem + (if st.pc = .start then 1 else 0) + (if st.dma.isSome then 1 else 0) +
    (if st.alarm.isSome then 1 else 0)

/-- The relation between the frame loop and the instance in flight: before the
transposition and before the acquire, nothing in flight touches the current
instance; before the flip, nothing in flight touches the other one. -/
def buffer_inv (st : Pipeline) : Prop :=
  ((st.pc = .transpose ∨ st.pc = .acquire) →
      st.dma ≠ some st.current_framebuffer ∧ st.alarm ≠ some st.current_framebuffer) ∧
    (st.pc = .flip →
      st.dma ≠ some (st.current_framebuffer ^^^ 1) ∧
        st.alarm ≠ some (st.current_framebuffer ^^^ 1))

/-! ## Theorems: bit-plane transposer -/

theorem plane_mask (b : Fin 24) : 0x800000 >>> b.val = 2 ^ (23 - b.val) := by
  have hb : b.val ≤ 23 := by omega
  rw [Nat.shiftRight_eq_div_pow]
  have h : (0x800000 : Nat) = 2 ^ 23 := by norm_num
  rw [h, Nat.pow_div hb (by norm_num)]

theorem and_two_pow_ne_zero (x k : Nat) : x &&& 2 ^ k ≠ 0 ↔ x.testBit k = true := by
  constructor
  · intro h
    by_contra hk
    apply h
    apply Nat.eq_of_testBit_eq
    intro i
    simp only [Nat.testBit_and, Nat.zero_testBit, Nat.testBit_two_pow]
    by_cases hi : k = i
    · subst hi; simp [hk]
    · simp [hi]
  · intro h h0
    have := congrArg (fun n => Nat.testBit n k) h0
    simp [Nat.testBit_two_pow_self, h] at this

theorem plane_cond (x : Nat) (b : Fin 24) :
    x &&& (0x800000 >>> b.val) ≠ 0 ↔ x.testBit (23 - b.val) = true := by
  rw [plane_mask, and_two_pow_ne_zero]

theorem strip_loop_spec (pixels : PixelBuffer) (p : Fin MAX_STRIP_LENGTH) (b : Fin 24)
    (l : List (Fin LED_STRIPS)) (fb : FrameBuffer) (q : Fin MAX_STRIP_LENGTH) (c : Fin 24) :
    ((l.foldl (translate_bit pixels p b) fb) q).bit_planes c =
      if q = p ∧ c = b then strip_word pixels p b l ((fb p).bit_planes b)
      else (fb q).bit_planes c := by
  induction l generalizing fb with
  | nil => by_cases h : q = p ∧ c = b
           · obtain ⟨rfl, rfl⟩ := h; simp [strip_word]
           · simp [strip_word, h]
  | cons s l ih =>
    rw [List.foldl_cons, ih]
    unfold strip_word
    rw [List.foldl_cons]
    unfold translate_bit
    by_cases hc : pixels s p &&& (0x800000 >>> b.val) ≠ 0
    · rw [if_pos hc, if_pos hc]
      by_cases h : q = p ∧ c = b
      · simp [h]
      · simp only [h, if_false]
        by_cases hq : q = p
        · subst hq
          have hcb : c ≠ b := fun e => h ⟨rfl, e⟩
          simp [Function.update_noteq hcb]
        · simp [Function.update_noteq hq]
    · rw [if_neg hc, if_neg hc]

theorem bit_loop_spec (pixels : PixelBuffer) (p : Fin MAX_STRIP_LENGTH)
    (lb : List (Fin 24)) (hlb : lb.Nodup) (fb : FrameBuffer)
    (q : Fin MAX_STRIP_LENGTH) (c : Fin 24) :
    ((lb.foldl
        (fun fb bit => (List.finRange LED_STRIPS).foldl (translate_bit pixels p bit) fb)
        fb) q).bit_planes c =
      if q = p ∧ c ∈ lb then
        strip_word pixels p c (List.finRange LED_STRIPS) ((fb p).bit_planes c)
      else (fb q).bit_planes c := by
  induction lb generalizing fb with
  | nil => simp
  | cons b lb ih =>
    rw [List.foldl_cons, ih (List.nodup_cons.mp hlb).2]
    have hb : b ∉ lb := (List.nodup_cons.mp hlb).1
    by_cases hq : q = p
    · subst hq
      by_cases hc : c = b
      · subst hc
        simp [hb, strip_loop_spec]
      · by_cases hm : c ∈ lb
        · simp [hm, hc, strip_loop_spec]
        · simp [hm, hc, strip_loop_spec]
    · simp [hq, strip_loop_spec]

theorem pixel_loop_spec (pixels : PixelBuffer)
    (lp : List (Fin MAX_STRIP_LENGTH)) (hlp : lp.Nodup) (fb : FrameBuffer)
    (q : Fin MAX_STRIP_LENGTH) (c : Fin 24) :
    ((lp.foldl
        (fun fb pixel =>
          (List.finRange 24).foldl
            (fun fb bit =>
              (List.finRange LED_STRIPS).foldl (translate_bit pixels pixel bit) fb)
            fb)
        fb) q).bit_planes c =
      if q ∈ lp then
        strip_word pixels q c (List.finRange LED_STRIPS) ((fb q).bit_planes c)
      else (fb q).bit_planes c := by
  induction lp generalizing fb with
  | nil => simp
  | cons p lp ih =>
    rw [List.foldl_cons, ih (List.nodup_cons.mp hlp).2]
    have hp : p ∉ lp := (List.nodup_cons.mp hlp).1
    have hnd := List.nodup_finRange 24
    by_cases hq : q = p
    · subst hq
      simp [hp, bit_loop_spec _ _ _ hnd, List.mem_finRange]
    · by_cases hm : q ∈ lp
      · simp [hm, hq, bit_loop_spec _ _ _ hnd]
      · simp [hm, hq, bit_loop_spec _ _ _ hnd]

/-- Every word of the transposed frame is the word built by the strip loop
from a cleared slot, whatever the target held before. -/
theorem translate_word (pixels : PixelBuffer) (fb0 : FrameBuffer)
    (p : Fin MAX_STRIP_LENGTH) (b : Fin 24) :
    ((translate_to_framebuffer pixels fb0) p).bit_planes b =
      strip_word pixels p b (List.finRange LED_STRIPS) 0 := by
  unfold translate_to_framebuffer
  rw [pixel_loop_spec _ _ (List.nodup_finRange _)]
  simp [List.mem_finRange]

theorem strip_word_testBit (pixels : PixelBuffer) (p : Fin MAX_STRIP_LENGTH) (b : Fin 24)
    (l : List (Fin LED_STRIPS)) (acc k : Nat) (hk : k < 32) :
    (strip_word pixels p b l acc).testBit k =
      (acc.testBit k ||
        decide (∃ s ∈ l, s.val = k ∧ (pixels s p).testBit (23 - b.val) = true)) := by
  induction l generalizing acc with
  | nil => simp [strip_word]
  | cons s l ih =>
    unfold strip_word at ih ⊢
    rw [List.foldl_cons, ih]
    by_cases hc : pixels s p &&& (0x800000 >>> b.val) ≠ 0
    · rw [if_pos hc]
      have hc2 := (plane_cond _ _).mp hc
      rw [Nat.testBit_mod_two_pow, Nat.testBit_or, Nat.one_shiftLeft, Nat.testBit_two_pow]
      by_cases hs : s.val = k
      · simp [hs, hk, hc2]
      · simp [hs, hk]
    · rw [if_neg hc]
      have hc2 : ¬ (pixels s p).testBit (23 - b.val) = true :=
        fun h => hc ((plane_cond _ _).mpr h)
      simp [hc2]

theorem strip_word_lt (pixels : PixelBuffer) (p : Fin MAX_STRIP_LENGTH) (b : Fin 24)
    (l : List (Fin LED_STRIPS)) (acc : Nat) (hacc : acc < 2 ^ 32) :
    strip_word pixels p b l acc < 2 ^ 32 := by
  induction l generalizing acc with
  | nil => simpa [strip_word] using hacc
  | cons s l ih =>
    unfold strip_word at ih ⊢
    rw [List.foldl_cons]
    apply ih
    split
    · exact Nat.mod_lt _ (by norm_num)
    · exact hacc

/-- The bit of strip `s` in word `b` of record `p` is bit `23 - b` of that
strip's pixel. -/
theorem translate_strip_bit (pixels : PixelBuffer) (fb0 : FrameBuffer)
    (p : Fin MAX_STRIP_LENGTH) (b : Fin 24) (s : Fin LED_STRIPS) :
    ((translate_to_framebuffer pixels fb0 p).bit_planes b).testBit s.val =
      (pixels s p).testBit (23 - b.val) := by
  have hs : s.val < 32 := lt_trans s.isLt (by norm_num)
  rw [translate_word, strip_word_testBit _ _ _ _ _ _ hs]
  simp only [Nat.zero_testBit, Bool.false_or, List.mem_finRange, true_and]
  by_cases ht : (pixels s p).testBit (23 - b.val) = true
  · rw [ht, decide_eq_true_eq]
    exact ⟨s, rfl, ht⟩
  · have ht2 : (pixels s p).testBit (23 - b.val) = false := by simpa using ht
    rw [ht2, decide_eq_false_iff_not]
    rintro ⟨u, hu, hb⟩
    have : u = s := Fin.ext hu
    subst this
    exact ht hb

/-- C2 (bit-plane layout): after `translate_to_framebuffer`, whatever the target
frame buffer held before, bit `s` of word `b` of record `p` is set exactly when
`s` is a strip index (`s < 5`) and bit `23 - b` of that strip's pixel at `p` is
set; in particular every bit at index 5 or above is clear. -/
theorem translate_bit_plane_layout (pixels : PixelBuffer) (fb0 : FrameBuffer)
    (p : Fin MAX_STRIP_LENGTH) (b : Fin 24) (s : Nat) :
    ((translate_to_framebuffer pixels fb0 p).bit_planes b).testBit s = true ↔
      ∃ h : s < LED_STRIPS, (pixels ⟨s, h⟩ p).testBit (23 - b.val) = true := by
  rw [translate_word]
  by_cases hs : s < 32
  · rw [strip_word_testBit _ _ _ _ _ _ hs]
    simp only [Nat.zero_testBit, Bool.false_or, decide_eq_true_eq, List.mem_finRange,
      true_and]
    constructor
    · rintro ⟨t, rfl, ht⟩
      exact ⟨t.isLt, ht⟩
    · rintro ⟨h, ht⟩
      exact ⟨⟨s, h⟩, rfl, ht⟩
  · have hlt := strip_word_lt pixels p b (List.finRange LED_STRIPS) 0 (by norm_num)
    have hpow : (2 : Nat) ^ 32 ≤ 2 ^ s := Nat.pow_le_pow_right (by norm_num) (by omega)
    rw [Nat.testBit_lt_two_pow (lt_of_lt_of_le hlt hpow)]
    constructor
    · intro h; cases h
    · rintro ⟨h, _⟩
      unfold LED_STRIPS at h
      omega

theorem inverse_fold_testBit (w : Fin 24 → Nat) (s : Nat) (lb : List (Fin 24))
    (acc i : Nat) :
    (lb.foldl (fun acc b => acc ||| (((w b >>> s) &&& 1) <<< (23 - b.val))) acc).testBit i =
      (acc.testBit i || decide (∃ b ∈ lb, 23 - b.val = i ∧ (w b).testBit s = true)) := by
  induction lb generalizing acc with
  | nil => simp
  | cons b lb ih =>
    rw [List.foldl_cons, ih, Nat.testBit_or, Nat.testBit_shiftLeft, Nat.testBit_and,
      Nat.testBit_shiftRight]
    by_cases hi : 23 - b.val = i
    · subst hi
      by_cases hw : (w b).testBit s = true
      · simp [hw]
      · simp [hw]
    · have h1 : (1 : Nat).testBit (i - (23 - b.val)) = true → i < 23 - b.val := by
        intro h
        by_contra hlt
        have hpos : i - (23 - b.val) ≠ 0 := by omega
        obtain ⟨k, hk⟩ := Nat.exists_eq_succ_of_ne_zero hpos
        rw [hk] at h
        simp [Nat.testBit_succ] at h
      by_cases hge : i ≥ 23 - b.val
      · have : (1 : Nat).testBit (i - (23 - b.val)) = false := by
          by_contra hne
          have := h1 (by simpa using hne)
          omega
        simp [hi, this]
      · simp [hi, hge]

/-- C1 (transpose round-trip): for a pixel buffer whose entries are 24-bit
values, transposing into any frame buffer and rebuilding every pixel from the
bit-plane form gives back the original buffer. -/
theorem transpose_round_trip (pixels : PixelBuffer) (fb0 : FrameBuffer)
    (h24 : ∀ s p, pixels s p < 2 ^ 24) :
    inverse_transpose (translate_to_framebuffer pixels fb0) = pixels := by
  funext s p
  apply Nat.eq_of_testBit_eq
  intro i
  unfold inverse_transpose
  rw [inverse_fold_testBit]
  simp only [Nat.zero_testBit, Bool.false_or, List.mem_finRange, true_and]
  by_cases hi : i < 24
  · have hb : (pixels s p).testBit i =
        decide (∃ b : Fin 24, 23 - b.val = i ∧
          ((translate_to_framebuffer pixels fb0 p).bit_planes b).testBit s.val = true) := by
      by_cases ht : (pixels s p).testBit i = true
      · rw [ht]
        symm
        rw [decide_eq_true_eq]
        refine ⟨⟨23 - i, by omega⟩, by simp; omega, ?_⟩
        rw [translate_strip_bit]
        have : 23 - (23 - i) = i := by omega
        simpa [this] using ht
      · have ht2 : (pixels s p).testBit i = false := by simpa using ht
        rw [ht2]
        symm
        rw [decide_eq_false_iff_not]
        rintro ⟨b, hbi, hb⟩
        rw [translate_strip_bit, hbi] at hb
        exact ht hb
    rw [hb]
  · have hpow : (2 : Nat) ^ 24 ≤ 2 ^ i := Nat.pow_le_pow_right (by norm_num) (by omega)
    rw [Nat.testBit_lt_two_pow (lt_of_lt_of_le (h24 s p) hpow)]
    rw [decide_eq_false_iff_not]
    rintro ⟨b, hbi, _⟩
    omega

/-- Witness for C1: the round trip at the buffer whose every pixel is
`0x00FF8010`. -/
theorem transpose_round_trip_witness :
    (∀ (s : Fin LED_STRIPS) (p : Fin MAX_STRIP_LENGTH),
        (fun _ _ => 0x00FF8010 : PixelBuffer) s p < 2 ^ 24) ∧
      inverse_transpose
          (translate_to_framebuffer (fun _ _ => 0x00FF8010) (fun _ => ⟨fun _ => 7⟩)) =
        (fun _ _ => 0x00FF8010 : PixelBuffer) :=
  ⟨fun _ _ => by norm_num,
    transpose_round_trip (fun _ _ => 0x00FF8010) (fun _ => ⟨fun _ => 7⟩)
      (fun _ _ => by norm_num)⟩

/-! ## Theorems: renderer -/

theorem write_pixel_eq (px : PixelBuffer) (s : Fin LED_STRIPS) (idx v : Nat)
    (h : idx < MAX_STRIP_LENGTH) :
    write_pixel px s idx v =
      some (Function.update px s (Function.update (px s) ⟨idx, h⟩ v)) := by
  simp [write_pixel, h]

/-- The run loop, started at offset `o` with enough loop tests left, terminates
without an out-of-range write and colours exactly the positions
`[c + o, c + on)` of row `s` that exist in the buffer. -/
theorem render_run_spec (t : Int) (s : Fin LED_STRIPS) (zone : led_zone_t) (c : Nat)
    (hc : c + zone.on_ < 2 ^ 32) :
    ∀ (fuel o : Nat) (px : PixelBuffer), o ≤ zone.on_ → zone.on_ - o < fuel →
      ∃ px', render_run t s zone c fuel o px = some px' ∧
        (∀ s', s' ≠ s → px' s' = px s') ∧
        ∀ p : Fin MAX_STRIP_LENGTH, px' s p =
          if c + o ≤ p.val ∧ p.val < c + zone.on_ then
            render_pixel t (p.val - c) zone.effect
          else px s p := by
  intro fuel
  induction fuel with
  | zero => intro o px _ h; omega
  | succ n ih =>
    intro o px ho hf
    rw [render_run]
    have hm : (c + o) % 2 ^ 32 = c + o := Nat.mod_eq_of_lt (by omega)
    rw [hm]
    by_cases hcond : o < zone.on_ ∧ c + o < MAX_STRIP_LENGTH
    · rw [if_pos hcond, write_pixel_eq _ _ _ _ hcond.2, Option.some_bind]
      have hm1 : (o + 1) % 2 ^ 32 = o + 1 := Nat.mod_eq_of_lt (by omega)
      rw [hm1]
      obtain ⟨px', he, hs', hp⟩ := ih (o + 1) _ (by omega) (by omega)
      refine ⟨px', he, ?_, ?_⟩
      · intro s' hne
        rw [hs' s' hne, Function.update_noteq hne]
      · intro p
        rw [hp p]
        simp only [Function.update_same]
        by_cases hpe : p.val = c + o
        · have hpp : p = ⟨c + o, hcond.2⟩ := Fin.ext hpe
          subst hpp
          simp [hcond.1]
        · have hpp : p ≠ ⟨c + o, hcond.2⟩ := fun e => hpe (by rw [e])
          rw [Function.update_noteq hpp]
          have h1 : (c + (o + 1) ≤ p.val ∧ p.val < c + zone.on_) ↔
              (c + o ≤ p.val ∧ p.val < c + zone.on_) := by omega
          simp only [h1]
    · rw [if_neg hcond]
      refine ⟨px, rfl, fun _ _ => rfl, ?_⟩
      intro p
      rw [if_neg]
      rintro ⟨h1, h2⟩
      have := p.isLt
      apply hcond
      constructor <;> omega

theorem zone_cursor_succ (zt : ZoneTable) (s : Fin LED_STRIPS)
    (k : Fin MAX_ZONES_PER_STRIP) :
    zone_cursor zt s (k.val + 1) = zone_start zt s k + (zt s k).on_ := by
  rw [zone_cursor, dif_pos k.isLt, zone_start]
  simp only [Fin.eta]
  omega

theorem zone_cursor_mono (zt : ZoneTable) (s : Fin LED_STRIPS) {j k : Nat} (h : j ≤ k) :
    zone_cursor zt s j ≤ zone_cursor zt s k := by
  induction k with
  | zero =>
    have : j = 0 := by omega
    subst this; exact le_refl _
  | succ k ih =>
    by_cases hj : j = k + 1
    · subst hj; exact le_refl _
    · have := ih (by omega)
      rw [zone_cursor]
      omega

theorem zone_cursor_le (zt : ZoneTable) (hwf : zt.wf) (s : Fin LED_STRIPS) (k : Nat) :
    zone_cursor zt s k ≤ k * 131070 := by
  induction k with
  | zero => simp [zone_cursor]
  | succ k ih =>
    rw [zone_cursor]
    by_cases h : k < MAX_ZONES_PER_STRIP
    · rw [dif_pos h]
      obtain ⟨_, h1, h2⟩ := hwf s ⟨k, h⟩
      omega
    · rw [dif_neg h]
      omega

theorem finRange_take_succ (n k : Nat) (h : k < n) :
    (List.finRange n).take (k + 1) = (List.finRange n).take k ++ [⟨k, h⟩] := by
  rw [List.take_succ]
  congr 1
  have hl : k < (List.finRange n).length := by simpa using h
  rw [List.getElem?_eq_getElem hl]
  simp

/-- Invariant of the zone loop after the first `k` slots of strip `s`: the
32-bit cursor is the unreduced sum, the other rows are untouched, and row `s`
holds the colour of the zone whose range contains the position, or what it
held before where no range does. -/
theorem zone_loop_spec (t : Int) (zt : ZoneTable) (hwf : zt.wf) (s : Fin LED_STRIPS)
    (px0 : PixelBuffer) :
    ∀ k, k ≤ MAX_ZONES_PER_STRIP →
      ∃ px', ((List.finRange MAX_ZONES_PER_STRIP).take k).foldl (render_zone t zt s)
          (some (0, px0)) = some (zone_cursor zt s k, px') ∧
        (∀ s', s' ≠ s → px' s' = px0 s') ∧
        ∀ p : Fin MAX_STRIP_LENGTH,
          (∀ j : Fin MAX_ZONES_PER_STRIP, j.val < k → in_zone zt s j p.val →
            px' s p = render_pixel t (p.val - zone_start zt s j) (zt s j).effect) ∧
          ((∀ j : Fin MAX_ZONES_PER_STRIP, j.val < k → ¬ in_zone zt s j p.val) →
            px' s p = px0 s p) := by
  intro k
  induction k with
  | zero =>
    intro _
    refine ⟨px0, by simp [zone_cursor], fun _ _ => rfl, fun p => ⟨?_, fun _ => rfl⟩⟩
    intro j hj; omega
  | succ k ih =>
    intro hk
    have hk' : k < MAX_ZONES_PER_STRIP := by omega
    have hk24 : k < 24 := hk'
    obtain ⟨px1, he, hs1, hp1⟩ := ih (by omega)
    rw [finRange_take_succ _ _ hk', List.foldl_append, he]
    simp only [List.foldl_cons, List.foldl_nil, render_zone, Option.some_bind]
    have hcur := zone_cursor_le zt hwf s k
    obtain ⟨_, hoff, hon⟩ := hwf s ⟨k, hk'⟩
    have hm : (zone_cursor zt s k + (zt s ⟨k, hk'⟩).off) % 2 ^ 32 =
        zone_start zt s ⟨k, hk'⟩ := by
      show _ = zone_cursor zt s k + (zt s ⟨k, hk'⟩).off
      apply Nat.mod_eq_of_lt
      omega
    rw [hm]
    have hst : zone_start zt s ⟨k, hk'⟩ + (zt s ⟨k, hk'⟩).on_ < 2 ^ 32 := by
      show zone_cursor zt s k + (zt s ⟨k, hk'⟩).off + _ < _
      omega
    obtain ⟨px2, he2, hs2, hp2⟩ :=
      render_run_spec t s (zt s ⟨k, hk'⟩) (zone_start zt s ⟨k, hk'⟩) hst
        ((zt s ⟨k, hk'⟩).on_ + 1) 0 px1 (Nat.zero_le _) (by omega)
    rw [he2]
    have hsucc := zone_cursor_succ zt s ⟨k, hk'⟩
    simp only at hsucc
    refine ⟨px2, ?_, ?_, ?_⟩
    · simp only [Option.map_some']
      rw [Nat.mod_eq_of_lt hst, hsucc]
    · intro s' hne
      rw [hs2 s' hne, hs1 s' hne]
    · intro p
      have hp2' := hp2 p
      simp only [Nat.add_zero] at hp2'
      constructor
      · intro j hj hin
        by_cases hjk : j.val = k
        · have hje : j = ⟨k, hk'⟩ := Fin.ext hjk
          subst hje
          rw [hp2', if_pos (show _ ∧ _ from hin)]
        · have hjlt : j.val < k := by omega
          have hle : zone_start zt s j + (zt s j).on_ ≤ zone_cursor zt s k := by
            rw [← zone_cursor_succ]
            exact zone_cursor_mono zt s (by omega)
          have hnot : ¬ (zone_start zt s ⟨k, hk'⟩ ≤ p.val ∧
              p.val < zone_start zt s ⟨k, hk'⟩ + (zt s ⟨k, hk'⟩).on_) := by
            rintro ⟨h1, _⟩
            have h3 := hin.2
            have h1' : zone_cursor zt s k + (zt s ⟨k, hk'⟩).off ≤ p.val := h1
            omega
          rw [hp2', if_neg hnot]
          exact (hp1 p).1 j hjlt hin
      · intro hnone
        have hnot : ¬ (zone_start zt s ⟨k, hk'⟩ ≤ p.val ∧
            p.val < zone_start zt s ⟨k, hk'⟩ + (zt s ⟨k, hk'⟩).on_) :=
          hnone ⟨k, hk'⟩ (by simp)
        rw [hp2', if_neg hnot]
        exact (hp1 p).2 (fun j hj => hnone j (by omega))

theorem render_strip_spec (t : Int) (zt : ZoneTable) (hwf : zt.wf) (s : Fin LED_STRIPS)
    (px0 : PixelBuffer) :
    ∃ px', render_strip t zt (some px0) s = some px' ∧
      (∀ s', s' ≠ s → px' s' = px0 s') ∧
      ∀ p : Fin MAX_STRIP_LENGTH,
        (∀ j : Fin MAX_ZONES_PER_STRIP, in_zone zt s j p.val →
          px' s p = render_pixel t (p.val - zone_start zt s j) (zt s j).effect) ∧
        ((∀ j : Fin MAX_ZONES_PER_STRIP, ¬ in_zone zt s j p.val) → px' s p = px0 s p) := by
  obtain ⟨px', he, hs, hp⟩ := zone_loop_spec t zt hwf s px0 MAX_ZONES_PER_STRIP (le_refl _)
  have htake : (List.finRange MAX_ZONES_PER_STRIP).take MAX_ZONES_PER_STRIP =
      List.finRange MAX_ZONES_PER_STRIP := List.take_of_length_le (by simp)
  rw [htake] at he
  refine ⟨px', ?_, hs, ?_⟩
  · simp only [render_strip, Option.some_bind, he, Option.map_some']
  · intro p
    exact ⟨fun j hin => (hp p).1 j j.isLt hin, fun hnone => (hp p).2 (fun j _ => hnone j)⟩

theorem strip_loop_render_spec (t : Int) (zt : ZoneTable) (hwf : zt.wf)
    (ls : List (Fin LED_STRIPS)) (hls : ls.Nodup) (px0 : PixelBuffer) :
    ∃ px', ls.foldl (render_strip t zt) (some px0) = some px' ∧
      ∀ (s : Fin LED_STRIPS) (p : Fin MAX_STRIP_LENGTH),
        (s ∉ ls → px' s p = px0 s p) ∧
        (s ∈ ls →
          (∀ j : Fin MAX_ZONES_PER_STRIP, in_zone zt s j p.val →
            px' s p = render_pixel t (p.val - zone_start zt s j) (zt s j).effect) ∧
          ((∀ j : Fin MAX_ZONES_PER_STRIP, ¬ in_zone zt s j p.val) →
            px' s p = px0 s p)) := by
  induction ls generalizing px0 with
  | nil => exact ⟨px0, rfl, fun s p => ⟨fun _ => rfl, fun h => absurd h (List.not_mem_nil _)⟩⟩
  | cons a ls ih =>
    obtain ⟨px1, he1, hs1, hp1⟩ := render_strip_spec t zt hwf a px0
    obtain ⟨px', he, hsp⟩ := ih (List.nodup_cons.mp hls).2 px1
    have ha : a ∉ ls := (List.nodup_cons.mp hls).1
    refine ⟨px', by rw [List.foldl_cons, he1, he], ?_⟩
    intro s p
    constructor
    · intro hn
      have hne : s ≠ a := fun e => hn (by rw [e]; exact List.mem_cons_self _ _)
      have hnl : s ∉ ls := fun h => hn (List.mem_cons_of_mem _ h)
      rw [(hsp s p).1 hnl, hs1 s hne]
    · intro hm
      by_cases hsa : s = a
      · subst hsa
        rw [(hsp s p).1 ha]
        exact hp1 p
      · have hml : s ∈ ls := by
          rcases List.mem_cons.mp hm with h | h
          · exact absurd h hsa
          · exact h
        obtain ⟨h1, h2⟩ := (hsp s p).2 hml
        refine ⟨h1, fun hnone => ?_⟩
        rw [h2 hnone, hs1 s hsa]

/-- The rendered frame, for every zone table with 16-bit `off` and `on`: the
renderer returns a buffer (no out-of-range write occurs), a position inside
the lit range of a slot holds that slot's colour, and a position in no lit
range holds 0. -/
theorem render_zones_spec (t : Int) (zt : ZoneTable) (hwf : zt.wf) (px0 : PixelBuffer) :
    ∃ px, render_zones t zt px0 = some px ∧
      ∀ (s : Fin LED_STRIPS) (p : Fin MAX_STRIP_LENGTH),
        (∀ j : Fin MAX_ZONES_PER_STRIP, in_zone zt s j p.val →
          px s p = render_pixel t (p.val - zone_start zt s j) (zt s j).effect) ∧
        ((∀ j : Fin MAX_ZONES_PER_STRIP, ¬ in_zone zt s j p.val) → px s p = 0) := by
  obtain ⟨px, he, hsp⟩ :=
    strip_loop_render_spec t zt hwf (List.finRange LED_STRIPS) (List.nodup_finRange _)
      (fun _ _ => 0)
  exact ⟨px, he, fun s p => (hsp s p).2 (List.mem_finRange s)⟩

theorem top_byte_mask_testBit (i : Nat) :
    (0xff000000 : Nat).testBit i = (decide (24 ≤ i) && decide (i < 32)) := by
  have h : (0xff000000 : Nat) = (2 ^ 8 - 1) <<< 24 := by decide
  rw [h, Nat.testBit_shiftLeft, Nat.testBit_two_pow_sub_one]
  by_cases h24 : 24 ≤ i
  · have : decide (i - 24 < 8) = decide (i < 32) := by
      by_cases h32 : i < 32
      · simp [h32]; omega
      · simp [h32]; omega
    simp [h24, this]
  · simp [h24]

theorem top_byte_zero_iff (e : Nat) (he : e < 2 ^ 32) :
    e &&& 0xff000000 = 0 ↔ e / 2 ^ 24 = 0 := by
  constructor
  · intro h
    have hlt : e < 2 ^ 24 := by
      apply Nat.lt_pow_two_of_testBit
      intro i hi
      by_cases h32 : i < 32
      · have := congrArg (fun n => Nat.testBit n i) h
        simp only [Nat.testBit_and, top_byte_mask_testBit, Nat.zero_testBit] at this
        have h24 : 24 ≤ i := hi
        simpa [h24, h32] using this
      · have hpow : (2 : Nat) ^ 32 ≤ 2 ^ i := Nat.pow_le_pow_right (by norm_num) (by omega)
        exact Nat.testBit_lt_two_pow (lt_of_lt_of_le he hpow)
    exact Nat.div_eq_of_lt hlt
  · intro h
    have hlt : e < 2 ^ 24 := by
      by_contra hge
      have : 0 < e / 2 ^ 24 := Nat.div_pos (by omega) (by norm_num)
      omega
    apply Nat.eq_of_testBit_eq
    intro i
    simp only [Nat.testBit_and, top_byte_mask_testBit, Nat.zero_testBit]
    by_cases h24 : 24 ≤ i
    · have hpow : (2 : Nat) ^ 24 ≤ 2 ^ i := Nat.pow_le_pow_right (by norm_num) h24
      rw [Nat.testBit_lt_two_pow (lt_of_lt_of_le hlt hpow)]
      simp
    · simp [h24]

/-- C5 (pixel rule): for a 32-bit effect code `e`, `render_pixel` returns `e`
unchanged when its top 8 bits are zero and pure red `0xFF0000` when they are
not, and in both cases the result is the same at every frame index and every
offset. -/
theorem render_pixel_rule (t : Int) (offset e : Nat) (he : e < 2 ^ 32) :
    (e / 2 ^ 24 = 0 → render_pixel t offset e = e) ∧
      (e / 2 ^ 24 ≠ 0 → render_pixel t offset e = 0xFF0000) ∧
      (∀ (t' : Int) (offset' : Nat), render_pixel t' offset' e = render_pixel t offset e) := by
  refine ⟨?_, ?_, fun _ _ => rfl⟩
  · intro h
    rw [render_pixel, if_pos ((top_byte_zero_iff e he).mpr h)]
  · intro h
    rw [render_pixel, if_neg (fun h0 => h ((top_byte_zero_iff e he).mp h0))]
    decide

/-- Witness for C5: the static colour `0x00FF8010` at frame 1000, offset 7. -/
theorem render_pixel_rule_witness :
    (0x00FF8010 : Nat) < 2 ^ 32 ∧
      ((0x00FF8010 / 2 ^ 24 = 0 → render_pixel 1000 7 0x00FF8010 = 0x00FF8010) ∧
        (0x00FF8010 / 2 ^ 24 ≠ 0 → render_pixel 1000 7 0x00FF8010 = 0xFF0000) ∧
        (∀ (t' : Int) (offset' : Nat),
          render_pixel t' offset' 0x00FF8010 = render_pixel 1000 7 0x00FF8010)) :=
  ⟨by norm_num, render_pixel_rule 1000 7 0x00FF8010 (by norm_num)⟩

/-- C3 (zone layout): for a zone table and a strip `s` whose 24 slots have a
cumulative `off + on` of at most 300, `render_zones` returns a buffer in which
every lit range `[start_k, start_k + on_k)` lies inside the row, every
position inside the range of slot `k` holds `render_pixel` of that slot's
effect, and every position in no range holds 0. -/
theorem render_zone_layout (t : Int) (zt : ZoneTable) (hwf : zt.wf) (px0 : PixelBuffer)
    (s : Fin LED_STRIPS)
    (hsum : zone_cursor zt s MAX_ZONES_PER_STRIP ≤ MAX_STRIP_LENGTH) :
    ∃ px, render_zones t zt px0 = some px ∧
      (∀ k : Fin MAX_ZONES_PER_STRIP,
        zone_start zt s k + (zt s k).on_ ≤ MAX_STRIP_LENGTH) ∧
      ∀ p : Fin MAX_STRIP_LENGTH,
        (∀ k : Fin MAX_ZONES_PER_STRIP, in_zone zt s k p.val →
          px s p = render_pixel t (p.val - zone_start zt s k) (zt s k).effect) ∧
        ((∀ k : Fin MAX_ZONES_PER_STRIP, ¬ in_zone zt s k p.val) → px s p = 0) := by
  obtain ⟨px, he, hsp⟩ := render_zones_spec t zt hwf px0
  refine ⟨px, he, ?_, fun p => hsp s p⟩
  intro k
  rw [← zone_cursor_succ]
  exact le_trans (zone_cursor_mono zt s (Nat.succ_le_of_lt k.isLt)) hsum

/-- C4 (clipping): for every zone table with 16-bit `off` and `on`,
`render_zones` returns a buffer, so no write falls outside a row; on every
strip the 32-bit cursor after any number of slots is the unreduced sum, so it
never wraps; every position of every row holds the colour of the zone whose
range contains it, or 0 when no range does; and for a zone `k` whose range
starts inside the row and reaches or passes position 300, the positions from
its start to 299 hold its colour, no later zone reaches into the row, and a
position before its start holds the colour of the earlier zone whose range
contains it, or 0 when no earlier range does: the zone colours its in-bounds
prefix and nothing else. -/
theorem render_zones_clipping (t : Int) (zt : ZoneTable) (hwf : zt.wf) (px0 : PixelBuffer) :
    ∃ px, render_zones t zt px0 = some px ∧
      (∀ (s : Fin LED_STRIPS) (px1 : PixelBuffer) (k : Nat), k ≤ MAX_ZONES_PER_STRIP →
        zone_cursor zt s k < 2 ^ 32 ∧
        ∃ px', ((List.finRange MAX_ZONES_PER_STRIP).take k).foldl (render_zone t zt s)
          (some (0, px1)) = some (zone_cursor zt s k, px')) ∧
      (∀ (s : Fin LED_STRIPS) (p : Fin MAX_STRIP_LENGTH),
        (∀ j : Fin MAX_ZONES_PER_STRIP, in_zone zt s j p.val →
          px s p = render_pixel t (p.val - zone_start zt s j) (zt s j).effect) ∧
        ((∀ j : Fin MAX_ZONES_PER_STRIP, ¬ in_zone zt s j p.val) → px s p = 0)) ∧
      ∀ (s : Fin LED_STRIPS) (k : Fin MAX_ZONES_PER_STRIP),
        zone_start zt s k < MAX_STRIP_LENGTH →
        MAX_STRIP_LENGTH ≤ zone_start zt s k + (zt s k).on_ →
        ∀ p : Fin MAX_STRIP_LENGTH,
          (in_zone zt s k p.val ↔ zone_start zt s k ≤ p.val) ∧
          (zone_start zt s k ≤ p.val →
            px s p = render_pixel t (p.val - zone_start zt s k) (zt s k).effect) ∧
          (∀ j : Fin MAX_ZONES_PER_STRIP, k.val < j.val → ¬ in_zone zt s j p.val) ∧
          (p.val < zone_start zt s k →
            (∀ j : Fin MAX_ZONES_PER_STRIP, in_zone zt s j p.val →
              j.val < k.val ∧
                px s p = render_pixel t (p.val - zone_start zt s j) (zt s j).effect) ∧
            ((∀ j : Fin MAX_ZONES_PER_STRIP, j.val < k.val → ¬ in_zone zt s j p.val) →
              px s p = 0)) := by
  obtain ⟨px, he, hsp⟩ := render_zones_spec t zt hwf px0
  refine ⟨px, he, ?_, hsp, ?_⟩
  · intro s px1 k hk
    have hk24 : k ≤ 24 := hk
    have hle := zone_cursor_le zt hwf s k
    refine ⟨by omega, ?_⟩
    obtain ⟨px', h, _⟩ := zone_loop_spec t zt hwf s px1 k hk
    exact ⟨px', h⟩
  · intro s k _ hcross p
    have hp : p.val < 300 := p.isLt
    have hcross' : 300 ≤ zone_start zt s k + (zt s k).on_ := hcross
    have hiff : in_zone zt s k p.val ↔ zone_start zt s k ≤ p.val := by
      unfold in_zone
      constructor
      · exact fun h => h.1
      · intro h
        exact ⟨h, by omega⟩
    have hlater : ∀ j : Fin MAX_ZONES_PER_STRIP, k.val < j.val → ¬ in_zone zt s j p.val := by
      intro j hkj hin
      have h1 : zone_cursor zt s (k.val + 1) ≤ zone_cursor zt s j.val :=
        zone_cursor_mono zt s (by omega)
      rw [zone_cursor_succ] at h1
      have h2 : zone_cursor zt s j.val + (zt s j).off ≤ p.val := hin.1
      omega
    refine ⟨hiff, fun h => (hsp s p).1 k (hiff.mpr h), hlater, ?_⟩
    intro hbefore
    have hearlier : ∀ j : Fin MAX_ZONES_PER_STRIP, in_zone zt s j p.val → j.val < k.val := by
      intro j hin
      by_contra hge
      by_cases hjk : j.val = k.val
      · have hje : j = k := Fin.ext hjk
        rw [hje] at hin
        have := hiff.mp hin
        omega
      · exact hlater j (by omega) hin
    refine ⟨fun j hin => ⟨hearlier j hin, (hsp s p).1 j hin⟩, ?_⟩
    intro hnone
    exact (hsp s p).2 (fun j hin => hnone j (hearlier j hin) hin)

theorem zones_short_wf : zones_short.wf :=
  fun _ _ => ⟨by norm_num [zones_short], by norm_num [zones_short], by norm_num [zones_short]⟩

theorem zones_long_wf : zones_long.wf := by
  intro s k
  unfold zones_long
  split <;> norm_num

/-- The run of slot 0 of `zones_long` crosses the end of the row and is drawn
up to position 299 in pure red. -/
theorem zones_long_crossing :
    zone_start zones_long 2 0 < MAX_STRIP_LENGTH ∧
      MAX_STRIP_LENGTH ≤ zone_start zones_long 2 0 + (zones_long 2 0).on_ ∧
      (render_zones 0 zones_long (fun _ _ => 9)).map
          (fun px => [px 2 ⟨289, by decide⟩, px 2 ⟨290, by decide⟩, px 2 ⟨299, by decide⟩]) =
        some [0, 0xFF0000, 0xFF0000] := by
  decide

/-- Witness for C3: the layout of strip 2 of `zones_short` at frame 0, over a
stale buffer of 9s. -/
theorem render_zone_layout_witness :
    zones_short.wf ∧ zone_cursor zones_short 2 MAX_ZONES_PER_STRIP ≤ MAX_STRIP_LENGTH ∧
      ∃ px, render_zones 0 zones_short (fun _ _ => 9) = some px ∧
        (∀ k : Fin MAX_ZONES_PER_STRIP,
          zone_start zones_short 2 k + (zones_short 2 k).on_ ≤ MAX_STRIP_LENGTH) ∧
        ∀ p : Fin MAX_STRIP_LENGTH,
          (∀ k : Fin MAX_ZONES_PER_STRIP, in_zone zones_short 2 k p.val →
            px 2 p =
              render_pixel 0 (p.val - zone_start zones_short 2 k) (zones_short 2 k).effect) ∧
          ((∀ k : Fin MAX_ZONES_PER_STRIP, ¬ in_zone zones_short 2 k p.val) → px 2 p = 0) :=
  ⟨zones_short_wf, by decide,
    render_zone_layout 0 zones_short zones_short_wf (fun _ _ => 9) 2 (by decide)⟩

theorem zones_clip_wf : zones_clip.wf := by
  intro s k
  unfold zones_clip
  split
  · norm_num
  · split <;> norm_num

set_option maxRecDepth 8192 in
/-- The frame of `zones_clip`, evaluated on strip 2: dark before the green zone,
green on `[10, 30)`, dark in the gap up to 289, red on the clipped run
`[290, 300)`, and nothing of the later blue zones. -/
theorem zones_clip_example :
    zone_start zones_clip 2 1 = 290 ∧ (zones_clip 2 1).on_ = 100 ∧
      (render_zones 0 zones_clip (fun _ _ => 9)).map
          (fun px => [px 2 ⟨9, by decide⟩, px 2 ⟨10, by decide⟩, px 2 ⟨29, by decide⟩,
            px 2 ⟨30, by decide⟩, px 2 ⟨289, by decide⟩, px 2 ⟨290, by decide⟩,
            px 2 ⟨299, by decide⟩]) =
        some [0, 0x00FF00, 0x00FF00, 0, 0, 0xFF0000, 0xFF0000] := by
  decide

/-- Witness for C4: clipping on `zones_clip` at frame 0, where slot 1 of every
strip starts at 290 and runs for 100 pixels. -/
theorem render_zones_clipping_witness :
    zones_clip.wf ∧
      ∃ px, render_zones 0 zones_clip (fun _ _ => 9) = some px ∧
        (∀ (s : Fin LED_STRIPS) (px1 : PixelBuffer) (k : Nat), k ≤ MAX_ZONES_PER_STRIP →
          zone_cursor zones_clip s k < 2 ^ 32 ∧
          ∃ px', ((List.finRange MAX_ZONES_PER_STRIP).take k).foldl
            (render_zone 0 zones_clip s) (some (0, px1)) =
              some (zone_cursor zones_clip s k, px')) ∧
        (∀ (s : Fin LED_STRIPS) (p : Fin MAX_STRIP_LENGTH),
          (∀ j : Fin MAX_ZONES_PER_STRIP, in_zone zones_clip s j p.val →
            px s p =
              render_pixel 0 (p.val - zone_start zones_clip s j) (zones_clip s j).effect) ∧
          ((∀ j : Fin MAX_ZONES_PER_STRIP, ¬ in_zone zones_clip s j p.val) → px s p = 0)) ∧
        ∀ (s : Fin LED_STRIPS) (k : Fin MAX_ZONES_PER_STRIP),
          zone_start zones_clip s k < MAX_STRIP_LENGTH →
          MAX_STRIP_LENGTH ≤ zone_start zones_clip s k + (zones_clip s k).on_ →
          ∀ p : Fin MAX_STRIP_LENGTH,
            (in_zone zones_clip s k p.val ↔ zone_start zones_clip s k ≤ p.val) ∧
            (zone_start zones_clip s k ≤ p.val →
              px s p =
                render_pixel 0 (p.val - zone_start zones_clip s k) (zones_clip s k).effect) ∧
            (∀ j : Fin MAX_ZONES_PER_STRIP, k.val < j.val → ¬ in_zone zones_clip s j p.val) ∧
            (p.val < zone_start zones_clip s k →
              (∀ j : Fin MAX_ZONES_PER_STRIP, in_zone zones_clip s j p.val →
                j.val < k.val ∧
                  px s p =
                    render_pixel 0 (p.val - zone_start zones_clip s j)
                      (zones_clip s j).effect) ∧
              ((∀ j : Fin MAX_ZONES_PER_STRIP, j.val < k.val →
                  ¬ in_zone zones_clip s j p.val) →
                px s p = 0)) :=
  ⟨zones_clip_wf, render_zones_clipping 0 zones_clip zones_clip_wf (fun _ _ => 9)⟩

/-! ## Theorems: command loop -/

theorem big_endian_value (b0 b1 b2 b3 : Nat) (h0 : b0 < 256) (h1 : b1 < 256)
    (h2 : b2 < 256) (h3 : b3 < 256) :
    ((((b0 <<< 24) % 2 ^ 32) ||| ((b1 <<< 16) % 2 ^ 32)) ||| ((b2 <<< 8) % 2 ^ 32)) ||| b3 =
      b0 * 2 ^ 24 + b1 * 2 ^ 16 + b2 * 2 ^ 8 + b3 := by
  rw [Nat.shiftLeft_eq, Nat.shiftLeft_eq, Nat.shiftLeft_eq,
    Nat.mod_eq_of_lt (by omega), Nat.mod_eq_of_lt (by omega), Nat.mod_eq_of_lt (by omega),
    Nat.or_assoc, Nat.or_assoc]
  rw [Nat.mul_comm b2, ← Nat.mul_add_lt_is_or (by omega) b2]
  rw [Nat.mul_comm b1, ← Nat.mul_add_lt_is_or (by omega) b1]
  rw [Nat.mul_comm b0, ← Nat.mul_add_lt_is_or (by omega) b0]
  omega

/-- C6 (binary protocol round-trip): one iteration of the command loop on the
input `E`, strip byte `s < 5`, zone byte `z < 24` and four value bytes sets
`zones[s][z].effect` to the big-endian value of the four bytes, leaves every
other field of every zone as it was, consumes exactly these seven bytes and
sends nothing. -/
theorem binary_effect_round_trip (zones : ZoneTable) (command : Nat → Nat)
    (rest out : List Nat) (s : Fin LED_STRIPS) (z : Fin MAX_ZONES_PER_STRIP)
    (b0 b1 b2 b3 : Nat) (h0 : b0 < 256) (h1 : b1 < 256) (h2 : b2 < 256) (h3 : b3 < 256) :
    ∃ st',
      core1_iter
          { zones := zones, command := command,
            con := { input := 'E'.toNat :: s.val :: z.val :: b0 :: b1 :: b2 :: b3 :: rest,
                     output := out } } = some st' ∧
        st'.zones = Function.update zones s (Function.update (zones s) z
          { zones s z with effect := b0 * 2 ^ 24 + b1 * 2 ^ 16 + b2 * 2 ^ 8 + b3 }) ∧
        st'.con = { input := rest, output := out } := by
  have hs : s.val < 5 := s.isLt
  have hz : z.val < 24 := z.isLt
  have hs8 : s.val % 256 = s.val := Nat.mod_eq_of_lt (by omega)
  have hz8 : z.val % 256 = z.val := Nat.mod_eq_of_lt (by omega)
  have hv := big_endian_value b0 b1 b2 b3 h0 h1 h2 h3
  have hb0 : b0 % 256 = b0 := Nat.mod_eq_of_lt (by omega)
  have hb1 : b1 % 256 = b1 := Nat.mod_eq_of_lt (by omega)
  have hb2 : b2 % 256 = b2 := Nat.mod_eq_of_lt (by omega)
  have hb3 : b3 % 256 = b3 := Nat.mod_eq_of_lt (by omega)
  have hv32 : (b0 * 16777216 + b1 * 65536 + b2 * 256 + b3) % 4294967296 =
      b0 * 16777216 + b1 * 65536 + b2 * 256 + b3 := Nat.mod_eq_of_lt (by omega)
  have hns : ¬ (LED_STRIPS ≤ s.val) := Nat.not_le.mpr s.isLt
  have hnz : ¬ (MAX_ZONES_PER_STRIP ≤ z.val) := Nat.not_le.mpr z.isLt
  norm_num at hv
  simp [core1_iter, getchar, select_field, read_binary, get_chars_silent,
    get_chars_silent_from, store_field, hs8, hz8, hb0, hb1, hb2, hb3, hns, hnz, hv]
  rw [hv32]

/-- Witness for C6: `E 0x02 0x05 0x00 0xFF 0x80 0x10` sets the effect of strip 2,
zone 5 to `0x00FF8010`. -/
theorem binary_effect_round_trip_witness :
    (0x00 < 256 ∧ 0xFF < 256 ∧ 0x80 < 256 ∧ 0x10 < 256) ∧
      ∃ st',
        core1_iter
            { zones := zones_short, command := fun _ => 0,
              con := { input := 'E'.toNat :: 0x02 :: 0x05 :: 0x00 :: 0xFF :: 0x80 :: 0x10 :: [],
                       output := [] } } = some st' ∧
          st'.zones = Function.update zones_short 2 (Function.update (zones_short 2) 5
            { zones_short 2 5 with effect := 0x00FF8010 }) ∧
          st'.con = { input := [], output := [] } :=
  ⟨by decide,
    binary_effect_round_trip zones_short (fun _ => 0) [] [] 2 5 0x00 0xFF 0x80 0x10
      (by decide) (by decide) (by decide) (by decide)⟩

theorem line_char_mod (c : Nat) (h : line_char c) : c % 256 = c :=
  Nat.mod_eq_of_lt h.1

theorem get_chars_silent_from_spec (l : List Nat) :
    ∀ (buf : Nat → Nat) (i : Nat) (rest out : List Nat),
      get_chars_silent_from buf i l.length { input := l ++ rest, output := out } =
        some (store_chars buf i (l.map (· % 2 ^ 8)), { input := rest, output := out }) := by
  induction l with
  | nil => intro buf i rest out; simp [get_chars_silent_from, store_chars]
  | cons c l ih =>
    intro buf i rest out
    simp only [List.length_cons, get_chars_silent_from, getchar, List.cons_append,
      List.map_cons, store_chars]
    exact ih _ _ _ _

/-- A full line: `get_line` reads `max` bytes none of which ends the line,
stores and echoes them all, and leaves the rest of the input. -/
theorem get_line_from_full (l : List Nat) :
    ∀ (buf : Nat → Nat) (i : Nat) (rest out : List Nat), (∀ c ∈ l, line_char c) →
      get_line_from buf i l.length { input := l ++ rest, output := out } =
        some (i + l.length, store_chars buf i l, { input := rest, output := out ++ l }) := by
  induction l with
  | nil => intro buf i rest out _; simp [get_line_from, store_chars]
  | cons c l ih =>
    intro buf i rest out hl
    have hc : line_char c := hl c (List.mem_cons_self _ _)
    have hcm := line_char_mod c hc
    obtain ⟨_, h10, h13⟩ := hc
    simp only [Char.reduceToNat] at h10 h13
    have hl' : ∀ c ∈ l, line_char c := fun d hd => hl d (List.mem_cons_of_mem _ hd)
    simp only [List.length_cons, get_line_from, getchar2, getchar, putchar, List.cons_append,
      store_chars, Char.reduceToNat, h13, if_false, Nat.reducePow, hcm, h10, or_self]
    rw [ih _ _ _ _ hl']
    simp [Nat.add_assoc, Nat.add_comm 1]

/-- A short line: fewer than `max` bytes and then a terminator.  `get_line`
stores the bytes, echoes them and the terminator, and consumes the
terminator. -/
theorem get_line_from_short (l : List Nat) :
    ∀ (buf : Nat → Nat) (i n nl : Nat) (rest out : List Nat), (∀ c ∈ l, line_char c) →
      l.length < n → (nl = '\n'.toNat ∨ nl = '\r'.toNat) →
      get_line_from buf i n { input := l ++ nl :: rest, output := out } =
        some (i + l.length, store_chars buf i l,
          { input := rest, output := out ++ l ++ terminator_echo nl }) := by
  induction l with
  | nil =>
    intro buf i n nl rest out _ hn hnl
    obtain ⟨m, rfl⟩ : ∃ m, n = m + 1 := ⟨n - 1, by simp at hn; omega⟩
    simp only [Char.reduceToNat] at hnl
    rcases hnl with rfl | rfl <;>
      simp [get_line_from, getchar2, getchar, putchar, store_chars, terminator_echo]
  | cons c l ih =>
    intro buf i n nl rest out hl hn hnl
    obtain ⟨m, rfl⟩ : ∃ m, n = m + 1 := ⟨n - 1, by simp at hn; omega⟩
    have hc : line_char c := hl c (List.mem_cons_self _ _)
    have hcm := line_char_mod c hc
    obtain ⟨_, h10, h13⟩ := hc
    simp only [Char.reduceToNat] at h10 h13
    have hl' : ∀ c ∈ l, line_char c := fun d hd => hl d (List.mem_cons_of_mem _ hd)
    simp only [get_line_from, getchar2, getchar, putchar, List.cons_append,
      store_chars, Char.reduceToNat, h13, if_false, Nat.reducePow, hcm, h10, or_self]
    rw [ih _ _ m nl _ _ hl' (by simp at hn; omega) hnl]
    simp [Nat.add_assoc, Nat.add_comm 1]

theorem store_chars_below (l : List Nat) :
    ∀ (buf : Nat → Nat) (i j : Nat), j < i → store_chars buf i l j = buf j := by
  induction l with
  | nil => intro buf i j _; rfl
  | cons c l ih =>
    intro buf i j hj
    rw [store_chars, ih _ _ _ (by omega), Function.update_noteq (by omega)]

theorem store_chars_get (l : List Nat) :
    ∀ (buf : Nat → Nat) (i k : Nat), k < l.length →
      store_chars buf i l (i + k) = l.getD k 0 := by
  induction l with
  | nil => intro buf i k hk; simp at hk
  | cons c l ih =>
    intro buf i k hk
    rw [store_chars]
    cases k with
    | zero =>
      rw [store_chars_below _ _ _ _ (by omega), Nat.add_zero, Function.update_same]
      rfl
    | succ k =>
      have := ih (Function.update buf i c) (i + 1) k (by simpa using hk)
      rw [show i + (k + 1) = i + 1 + k by omega, this]
      rfl

theorem hex_digit_eq (c : Nat) (h : is_hex_digit c) :
    hex_digit c = hex_digit_value c ∧ hex_digit_value c < 16 := by
  unfold is_hex_digit at h
  unfold hex_digit hex_digit_value
  simp only [Char.reduceToNat] at h ⊢
  rcases h with h | h | h
  · rw [if_pos h, if_pos h.2]
    constructor
    · exact Nat.mod_eq_of_lt (by omega)
    · omega
  · rw [if_neg (by omega), if_pos h, if_neg (by omega), if_neg (by omega)]
    constructor
    · exact Nat.mod_eq_of_lt (by omega)
    · omega
  · rw [if_neg (by omega), if_neg (by omega), if_pos h, if_neg (by omega), if_pos h.2]
    constructor
    · exact Nat.mod_eq_of_lt (by omega)
    · omega

theorem hex_value_take_succ (l : List Nat) (k : Nat) (hk : k < l.length) :
    hex_value (l.take (k + 1)) = 16 * hex_value (l.take k) + hex_digit_value (l.getD k 0) := by
  unfold hex_value
  rw [List.take_succ, List.foldl_append, List.getElem?_eq_getElem hk]
  simp [List.getD_eq_getElem?_getD, List.getElem?_eq_getElem hk]

/-- Invariant of the loop of `hex_to_uint` on a string of hexadecimal digits:
after `k` digits the accumulator is the value of those digits, shifted to
the place of the first `k` of `len` digits. -/
theorem hex_to_uint_loop (s : Nat → Nat) (l : List Nat) (hlen : l.length ≤ 8)
    (hs : ∀ i, i < l.length → s i = l.getD i 0) (hl : ∀ c ∈ l, is_hex_digit c) :
    ∀ k, k ≤ l.length →
      (List.range k).foldl
        (fun out i => out ||| ((hex_digit (s i) <<< (4 * (l.length - i - 1))) % 2 ^ 32)) 0 =
        2 ^ (4 * (l.length - k)) * hex_value (l.take k) := by
  intro k
  induction k with
  | zero => intro _; simp [hex_value]
  | succ k ih =>
    intro hk
    have hk' : k < l.length := by omega
    rw [List.range_succ, List.foldl_append, ih (by omega), List.foldl_cons, List.foldl_nil,
      hex_value_take_succ l k hk', hs k hk']
    have hmem : l.getD k 0 ∈ l := by
      rw [List.getD_eq_getElem?_getD, List.getElem?_eq_getElem hk']
      exact List.getElem_mem _
    obtain ⟨hd, hd16⟩ := hex_digit_eq _ (hl _ hmem)
    rw [hd, Nat.shiftLeft_eq]
    have he : 4 * (l.length - k) = 4 * (l.length - k - 1) + 4 := by omega
    have he' : l.length - (k + 1) = l.length - k - 1 := by omega
    have hpow : (2 : Nat) ^ (4 * (l.length - k - 1)) ≤ 2 ^ 28 :=
      Nat.pow_le_pow_right (by norm_num) (by omega)
    have hpos : 0 < (2 : Nat) ^ (4 * (l.length - k - 1)) := Nat.pow_pos (by norm_num)
    have hlt : hex_digit_value (l.getD k 0) * 2 ^ (4 * (l.length - k - 1)) <
        2 ^ (4 * (l.length - k)) := by
      rw [he, Nat.pow_add]
      have h1 : hex_digit_value (l.getD k 0) * 2 ^ (4 * (l.length - k - 1)) <
          16 * 2 ^ (4 * (l.length - k - 1)) := Nat.mul_lt_mul_of_pos_right hd16 hpos
      have h2 : (2 : Nat) ^ 4 = 16 := by norm_num
      rw [h2, Nat.mul_comm _ 16]
      exact h1
    have hlt32 : hex_digit_value (l.getD k 0) * 2 ^ (4 * (l.length - k - 1)) < 2 ^ 32 := by
      have : hex_digit_value (l.getD k 0) * 2 ^ (4 * (l.length - k - 1)) ≤ 15 * 2 ^ 28 :=
        Nat.mul_le_mul (by omega) hpow
      omega
    rw [Nat.mod_eq_of_lt hlt32, ← Nat.mul_add_lt_is_or hlt, he', he, Nat.pow_add]
    ring

/-- On at most 8 hexadecimal digits `hex_to_uint` returns their value as a
base-16 number, most significant digit first. -/
theorem hex_to_uint_spec (s : Nat → Nat) (l : List Nat) (hlen : l.length ≤ 8)
    (hs : ∀ i, i < l.length → s i = l.getD i 0) (hl : ∀ c ∈ l, is_hex_digit c) :
    hex_to_uint s l.length = hex_value l := by
  unfold hex_to_uint
  rw [hex_to_uint_loop s l hlen hs hl l.length (le_refl _)]
  simp

theorem hex_to_uint_congr (s s' : Nat → Nat) (len : Nat) (h : ∀ i, i < len → s i = s' i) :
    hex_to_uint s len = hex_to_uint s' len := by
  unfold hex_to_uint
  have key : ∀ (l : List Nat) (acc : Nat), (∀ i ∈ l, i < len) →
      l.foldl (fun out i => out ||| ((hex_digit (s i) <<< (4 * (len - i - 1))) % 2 ^ 32)) acc =
      l.foldl (fun out i => out ||| ((hex_digit (s' i) <<< (4 * (len - i - 1))) % 2 ^ 32))
        acc := by
    intro l
    induction l with
    | nil => intro _ _; rfl
    | cons a l ih =>
      intro acc hl
      rw [List.foldl_cons, List.foldl_cons, h a (hl a (List.mem_cons_self _ _))]
      exact ih _ (fun i hi => hl i (List.mem_cons_of_mem _ hi))
  exact key _ 0 (fun i hi => List.mem_range.mp hi)

/-- The value that `hex_to_uint` reads from a buffer into which `get_line` has
just stored the line `l`. -/
theorem hex_to_uint_store (buf : Nat → Nat) (l : List Nat) :
    hex_to_uint (store_chars buf 0 l) l.length = hex_to_uint (fun k => l.getD k 0) l.length := by
  apply hex_to_uint_congr
  intro i hi
  have := store_chars_get l buf 0 i hi
  rwa [Nat.zero_add] at this

/-- The text branch on a full index line `c0 c1 c2` and a full value line: the
parsed triple, the final buffer, and the console after the echo and the
closing newline. -/
theorem read_text_full (w : Nat) (command : Nat → Nat) (c0 c1 c2 : Nat) (vl rest out : List Nat)
    (h0 : line_char c0) (h1 : line_char c1) (h2 : line_char c2)
    (hvl : ∀ c ∈ vl, line_char c) (hlen : vl.length = w * 2) :
    read_text w command { input := c0 :: c1 :: c2 :: (vl ++ rest), output := out } =
      some (some (char_to_byte c0, hex_to_uint (fun k => [c1, c2].getD k 0) 2 % 2 ^ 8,
                  hex_to_uint (fun k => vl.getD k 0) vl.length),
            store_chars (store_chars command 0 [c0, c1, c2]) 0 vl,
            { input := rest,
              output := out ++ [command 0 % 2 ^ 8] ++ [c0, c1, c2] ++ vl ++ ['\n'.toNat] }) := by
  have hidx : ∀ c ∈ [c0, c1, c2], line_char c := by
    intro c hc
    simp only [List.mem_cons, List.mem_singleton, List.not_mem_nil, or_false] at hc
    rcases hc with rfl | rfl | rfl <;> assumption
  have e1 := get_line_from_full [c0, c1, c2] command 0 (vl ++ rest)
    (out ++ [command 0 % 2 ^ 8]) hidx
  have e2 := get_line_from_full vl (store_chars command 0 [c0, c1, c2]) 0 rest
    (out ++ [command 0 % 2 ^ 8] ++ [c0, c1, c2]) hvl
  simp only [List.length_cons, List.length_nil, List.cons_append, List.nil_append,
    Nat.zero_add] at e1 e2
  rw [hlen] at e2
  have hz : hex_to_uint (fun k => store_chars command 0 [c0, c1, c2] (k + 1)) 2 =
      hex_to_uint (fun k => [c1, c2].getD k 0) 2 := by
    apply hex_to_uint_congr
    intro i hi
    have := store_chars_get [c0, c1, c2] command 0 (i + 1) (by simp; omega)
    rw [Nat.zero_add] at this
    rw [this]
    rfl
  have hc0 : store_chars command 0 [c0, c1, c2] 0 = c0 := by
    have := store_chars_get [c0, c1, c2] command 0 0 (by simp)
    simpa using this
  have hv := hex_to_uint_store (store_chars command 0 [c0, c1, c2]) vl
  rw [hlen] at hv
  simp only [read_text, get_line, putchar, e1, e2, hz, hc0, hv]
  simp [hlen]

/-- The text branch on a full index line and a value line ended early by a
terminator `nl`. -/
theorem read_text_short (w : Nat) (command : Nat → Nat) (c0 c1 c2 nl : Nat)
    (vl rest out : List Nat)
    (h0 : line_char c0) (h1 : line_char c1) (h2 : line_char c2)
    (hvl : ∀ c ∈ vl, line_char c) (hlen : vl.length < w * 2)
    (hnl : nl = '\n'.toNat ∨ nl = '\r'.toNat) :
    read_text w command { input := c0 :: c1 :: c2 :: (vl ++ nl :: rest), output := out } =
      some (some (char_to_byte c0, hex_to_uint (fun k => [c1, c2].getD k 0) 2 % 2 ^ 8,
                  hex_to_uint (fun k => vl.getD k 0) vl.length),
            store_chars (store_chars command 0 [c0, c1, c2]) 0 vl,
            { input := rest,
              output := out ++ [command 0 % 2 ^ 8] ++ [c0, c1, c2] ++ vl ++
                terminator_echo nl }) := by
  have hidx : ∀ c ∈ [c0, c1, c2], line_char c := by
    intro c hc
    simp only [List.mem_cons, List.mem_singleton, List.not_mem_nil, or_false] at hc
    rcases hc with rfl | rfl | rfl <;> assumption
  have e1 := get_line_from_full [c0, c1, c2] command 0 (vl ++ nl :: rest)
    (out ++ [command 0 % 2 ^ 8]) hidx
  have e2 := get_line_from_short vl (store_chars command 0 [c0, c1, c2]) 0 (w * 2) nl rest
    (out ++ [command 0 % 2 ^ 8] ++ [c0, c1, c2]) hvl hlen hnl
  simp only [List.length_cons, List.length_nil, List.cons_append, List.nil_append,
    Nat.zero_add] at e1 e2
  have hz : hex_to_uint (fun k => store_chars command 0 [c0, c1, c2] (k + 1)) 2 =
      hex_to_uint (fun k => [c1, c2].getD k 0) 2 := by
    apply hex_to_uint_congr
    intro i hi
    have := store_chars_get [c0, c1, c2] command 0 (i + 1) (by simp; omega)
    rw [Nat.zero_add] at this
    rw [this]
    rfl
  have hc0 : store_chars command 0 [c0, c1, c2] 0 = c0 := by
    have := store_chars_get [c0, c1, c2] command 0 0 (by simp)
    simpa using this
  have hv := hex_to_uint_store (store_chars command 0 [c0, c1, c2]) vl
  have hne : vl.length ≠ w * 2 := by omega
  simp only [read_text, get_line, putchar, e1, e2, hz, hc0, hv]
  simp [hne]

/-- The iteration on an interactive set-field command reduces to the text
branch followed by the bounds checks and the store. -/
theorem core1_iter_text (zones : ZoneTable) (command : Nat → Nat) (cmd w f : Nat)
    (inp out : List Nat) (hsel : select_field cmd = some (true, w, f)) :
    core1_iter { zones := zones, command := command,
                 con := { input := cmd :: inp, output := out } } =
      match read_text w (Function.update command 0 cmd) { input := inp, output := out } with
      | none => none
      | some (none, command, con) => some { zones := zones, command := command, con := con }
      | some (some (strip, zone, value), command, con) =>
        some { zones := (store_field zones true f strip zone value con).1, command := command,
               con := (store_field zones true f strip zone value con).2 } := by
  unfold select_field at hsel
  simp only [Char.reduceToNat] at hsel
  split_ifs at hsel with h1 h2 h3 h4 h5 h6 <;>
    simp only [Option.some.injEq, Prod.mk.injEq, Bool.false_eq_true, false_and,
      true_and] at hsel
  all_goals
    obtain ⟨rfl, rfl⟩ := hsel
    subst cmd
    simp [core1_iter, getchar, select_field]

/-- The iteration on a binary set-field command reduces to the binary branch
followed by the bounds checks and the store. -/
theorem core1_iter_binary (zones : ZoneTable) (command : Nat → Nat) (cmd w f : Nat)
    (inp out : List Nat) (hsel : select_field cmd = some (false, w, f)) :
    core1_iter { zones := zones, command := command,
                 con := { input := cmd :: inp, output := out } } =
      match read_binary w (Function.update command 0 cmd) { input := inp, output := out } with
      | none => none
      | some ((strip, zone, value), command, con) =>
        some { zones := (store_field zones false f strip zone value con).1, command := command,
               con := (store_field zones false f strip zone value con).2 } := by
  unfold select_field at hsel
  simp only [Char.reduceToNat] at hsel
  split_ifs at hsel with h1 h2 h3 h4 h5 h6 <;>
    simp only [Option.some.injEq, Prod.mk.injEq, Bool.true_eq_false, false_and,
      true_and] at hsel
  all_goals
    obtain ⟨rfl, rfl⟩ := hsel
    subst cmd
    simp [core1_iter, getchar, select_field]

/-- The binary branch on a strip byte, a zone byte and `w` value bytes: the
bytes are consumed and nothing is sent. -/
theorem read_binary_spec (w : Nat) (command : Nat → Nat) (sb zb : Nat) (vs rest out : List Nat)
    (hlen : vs.length = w) :
    ∃ value command',
      read_binary w command { input := sb :: zb :: (vs ++ rest), output := out } =
        some ((sb % 2 ^ 8, zb % 2 ^ 8, value), command', { input := rest, output := out }) := by
  have e := get_chars_silent_from_spec vs command 0 rest out
  rw [hlen] at e
  simp only [read_binary, getchar, get_chars_silent, e]
  exact ⟨_, _, rfl⟩

/-- A command rejected by a bounds check leaves the table as it was and sends
a diagnostic in interactive mode only. -/
theorem store_field_reject (zones : ZoneTable) (text : Bool) (field strip zone value : Nat)
    (con : Console) (h : strip ≥ LED_STRIPS ∨ zone ≥ MAX_ZONES_PER_STRIP) :
    (store_field zones text field strip zone value con).1 = zones ∧
      (text = false → (store_field zones text field strip zone value con).2 = con) ∧
      (text = true →
        (store_field zones text field strip zone value con).2 =
            puts "Strip count too high\n" con ∨
          (store_field zones text field strip zone value con).2 =
            puts "Zone count too high\n" con) := by
  unfold store_field
  by_cases hs : strip ≥ LED_STRIPS
  · rw [dif_pos hs]
    refine ⟨rfl, ?_, ?_⟩
    · intro ht; simp [ht]
    · intro ht; left; simp [ht]
  · have hz : zone ≥ MAX_ZONES_PER_STRIP := by
      rcases h with h | h
      · exact absurd h hs
      · exact h
    rw [dif_neg hs, dif_pos hz]
    refine ⟨rfl, ?_, ?_⟩
    · intro ht; simp [ht]
    · intro ht; right; simp [ht]

/-- An in-range command: the addressed slot is replaced, the console is
untouched. -/
theorem store_field_ok (zones : ZoneTable) (text : Bool) (field value : Nat)
    (s : Fin LED_STRIPS) (z : Fin MAX_ZONES_PER_STRIP) (con : Console) :
    store_field zones text field s.val z.val value con =
      (Function.update zones s (Function.update (zones s) z
        (if field = 0 then { zones s z with off := value % 2 ^ 16 }
         else if field = 1 then { zones s z with on_ := value % 2 ^ 16 }
         else if field = 2 then { zones s z with effect := value % 2 ^ 32 }
         else zones s z)), con) := by
  unfold store_field
  rw [dif_neg (Nat.not_le.mpr s.isLt), dif_neg (Nat.not_le.mpr z.isLt)]

theorem is_hex_digit_line_char (c : Nat) (h : is_hex_digit c) : line_char c := by
  unfold is_hex_digit at h
  unfold line_char
  simp only [Char.reduceToNat] at h ⊢
  omega

theorem hex_value_fold_lt (l : List Nat) (hl : ∀ c ∈ l, is_hex_digit c) :
    ∀ acc, l.foldl (fun acc c => 16 * acc + hex_digit_value c) acc <
      16 ^ l.length * (acc + 1) := by
  induction l with
  | nil => intro acc; simp
  | cons c l ih =>
    intro acc
    rw [List.foldl_cons, List.length_cons]
    have h1 := ih (fun d hd => hl d (List.mem_cons_of_mem _ hd)) (16 * acc + hex_digit_value c)
    have h2 := (hex_digit_eq c (hl c (List.mem_cons_self _ _))).2
    have h3 : 16 ^ l.length * (16 * acc + hex_digit_value c + 1) ≤
        16 ^ l.length * (16 * (acc + 1)) := Nat.mul_le_mul_left _ (by omega)
    have h4 : 16 ^ (l.length + 1) * (acc + 1) = 16 ^ l.length * (16 * (acc + 1)) := by
      rw [Nat.pow_succ]; ring
    omega

theorem hex_value_lt (l : List Nat) (hl : ∀ c ∈ l, is_hex_digit c) :
    hex_value l < 16 ^ l.length := by
  have := hex_value_fold_lt l hl 0
  simpa [hex_value] using this

theorem hex_to_uint_list (l : List Nat) (hlen : l.length ≤ 8)
    (hl : ∀ c ∈ l, is_hex_digit c) :
    hex_to_uint (fun k => l.getD k 0) l.length = hex_value l :=
  hex_to_uint_spec _ l hlen (fun _ _ => rfl) hl

theorem char_to_byte_digit (c : Nat) (h0 : '0'.toNat ≤ c) (h9 : c ≤ '9'.toNat) :
    char_to_byte c = c - '0'.toNat := by
  unfold char_to_byte
  rw [if_pos ⟨h0, h9⟩]
  simp only [Char.reduceToNat] at h0 h9 ⊢
  exact Nat.mod_eq_of_lt (by omega)

/-- C7 (interactive protocol round-trip): one iteration of the command loop on
`l`, a strip digit `'0' + s` with `s < 5`, two hexadecimal digits of value
below 24 and four hexadecimal digits sets the `on` field of the addressed zone
to the value of the four digits, changes nothing else in the table, consumes
exactly these eight characters, and sends exactly their echo followed by a
newline. -/
theorem interactive_on_round_trip (zones : ZoneTable) (command : Nat → Nat)
    (rest out : List Nat) (s : Fin LED_STRIPS) (Z1 Z2 V1 V2 V3 V4 : Nat)
    (hZ1 : is_hex_digit Z1) (hZ2 : is_hex_digit Z2) (hz : hex_value [Z1, Z2] < MAX_ZONES_PER_STRIP)
    (hV1 : is_hex_digit V1) (hV2 : is_hex_digit V2) (hV3 : is_hex_digit V3)
    (hV4 : is_hex_digit V4) :
    ∃ st',
      core1_iter
          { zones := zones, command := command,
            con := { input := 'l'.toNat :: ('0'.toNat + s.val) :: Z1 :: Z2 :: V1 :: V2 :: V3 ::
                       V4 :: rest,
                     output := out } } = some st' ∧
        st'.zones = Function.update zones s (Function.update (zones s) ⟨hex_value [Z1, Z2], hz⟩
          { zones s ⟨hex_value [Z1, Z2], hz⟩ with on_ := hex_value [V1, V2, V3, V4] }) ∧
        st'.con = { input := rest,
                    output := out ++ ['l'.toNat, '0'.toNat + s.val, Z1, Z2, V1, V2, V3, V4,
                      '\n'.toNat] } := by
  have hs : s.val < 5 := s.isLt
  have hS : line_char ('0'.toNat + s.val) := by
    unfold line_char; simp only [Char.reduceToNat]; omega
  have hvl : ∀ c ∈ [V1, V2, V3, V4], line_char c := by
    intro c hc
    simp only [List.mem_cons, List.mem_singleton, List.not_mem_nil, or_false] at hc
    rcases hc with rfl | rfl | rfl | rfl <;> exact is_hex_digit_line_char _ (by assumption)
  have hvh : ∀ c ∈ [V1, V2, V3, V4], is_hex_digit c := by
    intro c hc
    simp only [List.mem_cons, List.mem_singleton, List.not_mem_nil, or_false] at hc
    rcases hc with rfl | rfl | rfl | rfl <;> assumption
  have hzh : ∀ c ∈ [Z1, Z2], is_hex_digit c := by
    intro c hc
    simp only [List.mem_cons, List.mem_singleton, List.not_mem_nil, or_false] at hc
    rcases hc with rfl | rfl <;> assumption
  have hrt := read_text_full 2 (Function.update command 0 'l'.toNat) ('0'.toNat + s.val) Z1 Z2
    [V1, V2, V3, V4] rest out hS (is_hex_digit_line_char _ hZ1) (is_hex_digit_line_char _ hZ2)
    hvl rfl
  have hzone : hex_to_uint (fun k => [Z1, Z2].getD k 0) 2 = hex_value [Z1, Z2] :=
    hex_to_uint_list [Z1, Z2] (by simp) hzh
  have hval := hex_to_uint_list [V1, V2, V3, V4] (by simp) hvh
  have hvlt : hex_value [V1, V2, V3, V4] < 65536 := by
    have h : hex_value [V1, V2, V3, V4] < 16 ^ 4 := hex_value_lt [V1, V2, V3, V4] hvh
    have h4 : (16 : Nat) ^ 4 = 65536 := by norm_num
    rw [h4] at h
    exact h
  have hz24 : hex_value [Z1, Z2] < 24 := hz
  have hstrip : char_to_byte ('0'.toNat + s.val) = s.val := by
    rw [char_to_byte_digit _ (by omega) (by simp only [Char.reduceToNat]; omega)]
    omega
  rw [hzone, hval, hstrip, Nat.mod_eq_of_lt (by omega)] at hrt
  rw [core1_iter_text zones command 'l'.toNat 2 1 _ out (by simp [select_field])]
  simp only [List.cons_append, List.nil_append] at hrt
  rw [hrt]
  have hsf := store_field_ok zones true 1 (hex_value [V1, V2, V3, V4]) s
    ⟨hex_value [Z1, Z2], hz⟩
  simp only at hsf
  simp only [hsf]
  refine ⟨_, rfl, ?_, ?_⟩
  · have : hex_value [V1, V2, V3, V4] % 65536 = hex_value [V1, V2, V3, V4] :=
      Nat.mod_eq_of_lt hvlt
    simp [this]
  · simp

/-- The example of the specification, evaluated: `l205` then `00C8` sets the
`on` field of strip 2, zone 5 to 200 and echoes the eight characters and a
newline. -/
theorem interactive_on_example :
    (core1_iter
        { zones := zones_short, command := fun _ => 0,
          con := { input := "l20500C8".toList.map Char.toNat, output := [] } }).map
      (fun st => ((st.zones 2 5).on_, (st.zones 2 5).off, st.con.input, st.con.output)) =
      some (200, 3, [], "l20500C8\n".toList.map Char.toNat) := by
  decide

/-- Witness for C7: the command `l205` `00C8`. -/
theorem interactive_on_round_trip_witness :
    (is_hex_digit '0'.toNat ∧ is_hex_digit '5'.toNat ∧ is_hex_digit 'C'.toNat ∧
        is_hex_digit '8'.toNat) ∧
      ∃ st',
        core1_iter
            { zones := zones_short, command := fun _ => 0,
              con := { input := 'l'.toNat :: ('0'.toNat + (2 : Fin LED_STRIPS).val) ::
                         '0'.toNat :: '5'.toNat :: '0'.toNat :: '0'.toNat :: 'C'.toNat ::
                         '8'.toNat :: [],
                       output := [] } } = some st' ∧
          st'.zones = Function.update zones_short 2 (Function.update (zones_short 2)
            ⟨hex_value ['0'.toNat, '5'.toNat], by decide⟩
            { zones_short 2 ⟨hex_value ['0'.toNat, '5'.toNat], by decide⟩ with
              on_ := hex_value ['0'.toNat, '0'.toNat, 'C'.toNat, '8'.toNat] }) ∧
          st'.con = { input := [],
                      output := [] ++ ['l'.toNat, '0'.toNat + (2 : Fin LED_STRIPS).val,
                        '0'.toNat, '5'.toNat, '0'.toNat, '0'.toNat, 'C'.toNat, '8'.toNat,
                        '\n'.toNat] } :=
  ⟨by decide,
    interactive_on_round_trip zones_short (fun _ => 0) [] [] 2 '0'.toNat '5'.toNat '0'.toNat
      '0'.toNat 'C'.toNat '8'.toNat (by decide) (by decide) (by decide) (by decide) (by decide)
      (by decide) (by decide)⟩

/-- C9 (reset): on the command byte `R` or `r` one iteration of the command
loop leaves every field of every zone slot of every strip equal to 0,
whatever the table held, and consumes exactly that byte; `R` sends nothing,
`r` sends its echo `r` and a newline. -/
theorem reset_command (zones : ZoneTable) (command : Nat → Nat) (rest out : List Nat) :
    (∃ st',
        core1_iter { zones := zones, command := command,
                     con := { input := 'R'.toNat :: rest, output := out } } = some st' ∧
          (∀ s z, st'.zones s z = { effect := 0, off := 0, on_ := 0 }) ∧
          st'.con = { input := rest, output := out }) ∧
      (∃ st',
        core1_iter { zones := zones, command := command,
                     con := { input := 'r'.toNat :: rest, output := out } } = some st' ∧
          (∀ s z, st'.zones s z = { effect := 0, off := 0, on_ := 0 }) ∧
          st'.con = { input := rest, output := out ++ ['r'.toNat, '\n'.toNat] }) := by
  constructor
  · exact ⟨{ zones := fun _ _ => ⟨0, 0, 0⟩, command := Function.update command 0 'R'.toNat,
             con := { input := rest, output := out } },
      by simp [core1_iter, getchar], fun _ _ => rfl, rfl⟩
  · exact ⟨{ zones := fun _ _ => ⟨0, 0, 0⟩, command := Function.update command 0 'r'.toNat,
             con := { input := rest, output := out ++ ['r'.toNat, '\n'.toNat] } },
      by simp [core1_iter, getchar, putchar], fun _ _ => rfl, rfl⟩

/-- A rejected interactive command leaves the table untouched and calls
`puts("Strip count too high\n")`, or `puts("Zone count too high\n")` when the
strip index is in range. -/
theorem store_field_reject_text (zones : ZoneTable) (field strip zone value : Nat)
    (con : Console) (h : LED_STRIPS ≤ strip ∨ MAX_ZONES_PER_STRIP ≤ zone) :
    store_field zones true field strip zone value con =
      (zones,
        puts (if LED_STRIPS ≤ strip then "Strip count too high\n"
              else "Zone count too high\n") con) := by
  unfold store_field
  by_cases hs : strip ≥ LED_STRIPS
  · rw [dif_pos hs, if_pos hs]
    rfl
  · have hz : zone ≥ MAX_ZONES_PER_STRIP := by
      rcases h with h | h
      · exact absurd h hs
      · exact h
    rw [dif_neg hs, dif_pos hz, if_neg hs]
    rfl

/-- C8 (bounds rejection): a set-field command whose parsed strip index is 5 or
more, or whose parsed zone index is 24 or more, leaves the whole zone table
unchanged.  In binary mode (`E`, `L`, `D`) the command consumes its bytes and
sends nothing.  In interactive mode (`e`, `l`, `d`), with the value line
either full or ended early by a terminator, the output grows by the echo of
what was read followed by the bytes of the diagnostic line: the text
`Strip count too high` when the strip index is out of range, `Zone count too
high` otherwise, each followed by two newlines (the one of the string and the
one `puts` adds). -/
theorem bounds_rejection (zones : ZoneTable) (command : Nat → Nat) (cmd w f : Nat)
    (rest out : List Nat) :
    (∀ (sb zb : Nat) (vs : List Nat), select_field cmd = some (false, w, f) →
        sb < 256 → zb < 256 → vs.length = w →
        (LED_STRIPS ≤ sb ∨ MAX_ZONES_PER_STRIP ≤ zb) →
        ∃ st',
          core1_iter { zones := zones, command := command,
                       con := { input := cmd :: sb :: zb :: (vs ++ rest), output := out } } =
              some st' ∧
            st'.zones = zones ∧ st'.con = { input := rest, output := out }) ∧
      (∀ (c0 c1 c2 : Nat) (vl : List Nat), select_field cmd = some (true, w, f) →
        line_char c0 → line_char c1 → line_char c2 → (∀ c ∈ vl, line_char c) →
        vl.length = w * 2 →
        (LED_STRIPS ≤ char_to_byte c0 ∨
          MAX_ZONES_PER_STRIP ≤ hex_to_uint (fun k => [c1, c2].getD k 0) 2 % 2 ^ 8) →
        ∃ st',
          core1_iter { zones := zones, command := command,
                       con := { input := cmd :: c0 :: c1 :: c2 :: (vl ++ rest),
                                output := out } } = some st' ∧
            st'.zones = zones ∧
            st'.con =
              { input := rest,
                output := out ++ [cmd] ++ [c0, c1, c2] ++ vl ++ ['\n'.toNat] ++
                  ((if LED_STRIPS ≤ char_to_byte c0 then "Strip count too high\n"
                    else "Zone count too high\n").toList.map Char.toNat ++ ['\n'.toNat]) }) ∧
      (∀ (c0 c1 c2 nl : Nat) (vl : List Nat), select_field cmd = some (true, w, f) →
        line_char c0 → line_char c1 → line_char c2 → (∀ c ∈ vl, line_char c) →
        vl.length < w * 2 → (nl = '\n'.toNat ∨ nl = '\r'.toNat) →
        (LED_STRIPS ≤ char_to_byte c0 ∨
          MAX_ZONES_PER_STRIP ≤ hex_to_uint (fun k => [c1, c2].getD k 0) 2 % 2 ^ 8) →
        ∃ st',
          core1_iter { zones := zones, command := command,
                       con := { input := cmd :: c0 :: c1 :: c2 :: (vl ++ nl :: rest),
                                output := out } } = some st' ∧
            st'.zones = zones ∧
            st'.con =
              { input := rest,
                output := out ++ [cmd] ++ [c0, c1, c2] ++ vl ++ terminator_echo nl ++
                  ((if LED_STRIPS ≤ char_to_byte c0 then "Strip count too high\n"
                    else "Zone count too high\n").toList.map Char.toNat ++
                    ['\n'.toNat]) }) := by
  have hcmd : ∀ t, select_field cmd = some (t, w, f) → cmd % 2 ^ 8 = cmd := by
    intro t hsel
    unfold select_field at hsel
    simp only [Char.reduceToNat] at hsel
    split_ifs at hsel <;> (subst cmd; rfl)
  refine ⟨?_, ?_, ?_⟩
  · intro sb zb vs hsel hsb hzb hlen hbad
    obtain ⟨value, command', hrb⟩ :=
      read_binary_spec w (Function.update command 0 cmd) sb zb vs rest out hlen
    rw [core1_iter_binary zones command cmd w f _ out hsel, hrb]
    rw [Nat.mod_eq_of_lt (show sb < 2 ^ 8 by omega),
      Nat.mod_eq_of_lt (show zb < 2 ^ 8 by omega)]
    obtain ⟨h1, h2, _⟩ :=
      store_field_reject zones false f sb zb value { input := rest, output := out } hbad
    exact ⟨_, rfl, h1, h2 rfl⟩
  · intro c0 c1 c2 vl hsel h0 h1 h2 hvl hlen hbad
    have hrt := read_text_full w (Function.update command 0 cmd) c0 c1 c2 vl rest out
      h0 h1 h2 hvl hlen
    rw [Function.update_same, hcmd true hsel] at hrt
    rw [core1_iter_text zones command cmd w f _ out hsel, hrt]
    have e := store_field_reject_text zones f (char_to_byte c0)
      (hex_to_uint (fun k => [c1, c2].getD k 0) 2 % 2 ^ 8)
      (hex_to_uint (fun k => vl.getD k 0) vl.length)
      { input := rest, output := out ++ [cmd] ++ [c0, c1, c2] ++ vl ++ ['\n'.toNat] } hbad
    exact ⟨_, rfl, by simp only [e], by simp only [e, puts]⟩
  · intro c0 c1 c2 nl vl hsel h0 h1 h2 hvl hlen hnl hbad
    have hrt := read_text_short w (Function.update command 0 cmd) c0 c1 c2 nl vl rest out
      h0 h1 h2 hvl hlen hnl
    rw [Function.update_same, hcmd true hsel] at hrt
    rw [core1_iter_text zones command cmd w f _ out hsel, hrt]
    have e := store_field_reject_text zones f (char_to_byte c0)
      (hex_to_uint (fun k => [c1, c2].getD k 0) 2 % 2 ^ 8)
      (hex_to_uint (fun k => vl.getD k 0) vl.length)
      { input := rest, output := out ++ [cmd] ++ [c0, c1, c2] ++ vl ++ terminator_echo nl }
      hbad
    exact ⟨_, rfl, by simp only [e], by simp only [e, puts]⟩

/-- Witness for C8: `E` with strip byte 5 leaves the table unchanged and sends
nothing; `e500` `00FF8010` and `d0FF` `12` carriage return are rejected, and
the output is the echo followed by the bytes of the diagnostic. -/
theorem bounds_rejection_witness :
    (∃ st',
        core1_iter { zones := zones_clip, command := fun _ => 0,
                     con := { input := 'E'.toNat :: 5 :: 0 :: ([0, 255, 128, 16] ++ []),
                              output := [] } } = some st' ∧
          st'.zones = zones_clip ∧ st'.con = { input := [], output := [] }) ∧
      (∃ st',
        core1_iter { zones := zones_clip, command := fun _ => 0,
                     con := { input := 'e'.toNat :: '5'.toNat :: '0'.toNat :: '0'.toNat ::
                                ("00FF8010".toList.map Char.toNat ++ []),
                              output := [] } } = some st' ∧
          st'.zones = zones_clip ∧
          st'.con =
            { input := [],
              output := [] ++ ['e'.toNat] ++ ['5'.toNat, '0'.toNat, '0'.toNat] ++
                "00FF8010".toList.map Char.toNat ++ ['\n'.toNat] ++
                ((if LED_STRIPS ≤ char_to_byte '5'.toNat then "Strip count too high\n"
                  else "Zone count too high\n").toList.map Char.toNat ++ ['\n'.toNat]) }) ∧
      (∃ st',
        core1_iter { zones := zones_clip, command := fun _ => 0,
                     con := { input := 'd'.toNat :: '0'.toNat :: 'F'.toNat :: 'F'.toNat ::
                                ("12".toList.map Char.toNat ++ '\r'.toNat :: []),
                              output := [] } } = some st' ∧
          st'.zones = zones_clip ∧
          st'.con =
            { input := [],
              output := [] ++ ['d'.toNat] ++ ['0'.toNat, 'F'.toNat, 'F'.toNat] ++
                "12".toList.map Char.toNat ++ terminator_echo '\r'.toNat ++
                ((if LED_STRIPS ≤ char_to_byte '0'.toNat then "Strip count too high\n"
                  else "Zone count too high\n").toList.map Char.toNat ++ ['\n'.toNat]) }) :=
  ⟨(bounds_rejection zones_clip (fun _ => 0) 'E'.toNat 4 2 [] []).1 5 0 [0, 255, 128, 16]
      (by decide) (by decide) (by decide) (by decide) (by decide),
    (bounds_rejection zones_clip (fun _ => 0) 'e'.toNat 4 2 [] []).2.1 '5'.toNat '0'.toNat
      '0'.toNat ("00FF8010".toList.map Char.toNat) (by decide) (by decide) (by decide)
      (by decide) (by decide) (by decide) (by decide),
    (bounds_rejection zones_clip (fun _ => 0) 'd'.toNat 2 0 [] []).2.2 '0'.toNat 'F'.toNat
      'F'.toNat '\r'.toNat ("12".toList.map Char.toNat) (by decide) (by decide) (by decide)
      (by decide) (by decide) (by decide) (by decide) (by decide)⟩

/-- The rejected commands of the witness, evaluated: the diagnostic text that
follows the echo. -/
theorem bounds_rejection_example :
    (core1_iter { zones := zones_short, command := fun _ => 0,
                  con := { input := "e50000FF8010".toList.map Char.toNat, output := [] } }).map
        (fun st => (st.con.input, st.con.output)) =
      some ([], "e50000FF8010\nStrip count too high\n\n".toList.map Char.toNat) ∧
    (core1_iter { zones := zones_short, command := fun _ => 0,
                  con := { input := "d0FF12\r".toList.map Char.toNat, output := [] } }).map
        (fun st => (st.con.input, st.con.output)) =
      some ([], "d0FF12\r\nZone count too high\n\n".toList.map Char.toNat) := by
  decide

/-! ## Theorems: output pipeline -/

theorem tokens_init : tokens Pipeline.init = 1 := by decide

/-- The transfer token is neither duplicated nor lost by a step. -/
theorem tokens_step (e : Event) (st st' : Pipeline) (h : step e st = some st')
    (ht : tokens st = 1) : tokens st' = 1 := by
  obtain ⟨pc, t, cur, sem, dma, alarm⟩ := st
  cases e with
  | main =>
    cases pc with
    | transpose =>
      simp only [step, Option.some.injEq] at h
      subst h
      simpa [tokens] using ht
    | acquire =>
      simp only [step] at h
      split at h
      · simp only [Option.some.injEq] at h
        subst h
        simp only [tokens, if_true] at ht ⊢
        simp at ht ⊢
        omega
      · cases h
    | start =>
      simp only [step, Option.some.injEq] at h
      subst h
      simp only [tokens] at ht ⊢
      cases dma <;> cases alarm <;> simp at ht ⊢
      omega
    | flip =>
      simp only [step, Option.some.injEq] at h
      subst h
      simpa [tokens] using ht
  | dma_complete =>
    cases dma with
    | none => simp [step] at h
    | some i =>
      simp only [step, Option.some.injEq] at h
      subst h
      simp only [tokens] at ht ⊢
      cases pc <;> cases alarm <;> simp at ht ⊢ <;> omega
  | reset_delay_complete =>
    cases alarm with
    | none => simp [step] at h
    | some i =>
      simp only [step, Option.some.injEq] at h
      subst h
      simp only [tokens] at ht ⊢
      cases pc <;> cases dma <;> simp at ht ⊢ <;> first | omega | (split_ifs <;> omega)

theorem tokens_run (es : List Event) :
    ∀ st st', run es st = some st' → tokens st = 1 → tokens st' = 1 := by
  induction es with
  | nil =>
    intro st st' h ht
    simp only [run, Option.some.injEq] at h
    subst h
    exact ht
  | cons e es ih =>
    intro st st' h ht
    simp only [run] at h
    cases hs : step e st with
    | none => rw [hs] at h; cases h
    | some st1 =>
      rw [hs, Option.some_bind] at h
      exact ih st1 st' h (tokens_step e st st1 hs ht)

/-- C10 (alternation safety): in every state reached from the initial state
along any schedule of frame-loop steps, completion interrupts and timer
expiries, at most one of the two frame buffer instances is in a non-`Idle`
state. -/
theorem alternation_safety (es : List Event) (st : Pipeline)
    (h : run es Pipeline.init = some st) :
    ¬ (instance_state st 0 ≠ BufState.Idle ∧ instance_state st 1 ≠ BufState.Idle) := by
  have ht := tokens_run es _ _ h tokens_init
  obtain ⟨pc, t, cur, sem, dma, alarm⟩ := st
  rintro ⟨h0, h1⟩
  simp only [instance_state] at h0 h1
  simp only [tokens] at ht
  cases dma with
  | none =>
    cases alarm with
    | none => simp at h0
    | some j =>
      simp only [Option.some.injEq, reduceCtorEq, if_false] at h0 h1
      by_cases hj : j = 0
      · subst hj; simp at h1
      · have : ¬ (j = 0) := hj
        simp [this] at h0
  | some i =>
    cases alarm with
    | none =>
      simp only [Option.some.injEq, reduceCtorEq, if_false] at h0 h1
      by_cases hi : i = 0
      · subst hi; simp at h1
      · simp [hi] at h0
    | some j =>
      simp at ht

/-- Witness for C10: two frame cycles, the first transfer completing and its
quiet period ending before the second transfer starts. -/
theorem alternation_safety_witness :
    run [Event.main, Event.main, Event.main, Event.main, Event.main,
          Event.dma_complete, Event.reset_delay_complete, Event.main, Event.main]
        Pipeline.init =
      some { pc := .flip, t := 1, current_framebuffer := 1, sem := 0, dma := some 1,
             alarm := none } ∧
      ¬ (instance_state
            { pc := .flip, t := 1, current_framebuffer := 1, sem := 0, dma := some 1,
              alarm := none } 0 ≠ BufState.Idle ∧
          instance_state
            { pc := .flip, t := 1, current_framebuffer := 1, sem := 0, dma := some 1,
              alarm := none } 1 ≠ BufState.Idle) :=
  ⟨by decide,
    alternation_safety
      [Event.main, Event.main, Event.main, Event.main, Event.main,
        Event.dma_complete, Event.reset_delay_complete, Event.main, Event.main]
      _ (by decide)⟩

/-- C11 (unknown command): on a leading byte other than `\n`, `\r`, `r`, `R`,
`e`, `E`, `l`, `L`, `d`, `D`, one iteration of the command loop consumes
exactly that byte, sends the diagnostic `puts("\nInvalid command\n")`, and
leaves the whole zone table unchanged. -/
theorem unknown_command (zones : ZoneTable) (command : Nat → Nat) (c : Nat)
    (rest out : List Nat) (hc : c < 256)
    (hno : c ∉ ['\n'.toNat, '\r'.toNat, 'r'.toNat, 'R'.toNat, 'e'.toNat, 'E'.toNat,
      'l'.toNat, 'L'.toNat, 'd'.toNat, 'D'.toNat]) :
    ∃ st',
      core1_iter { zones := zones, command := command,
                   con := { input := c :: rest, output := out } } = some st' ∧
        st'.zones = zones ∧
        st'.con = { input := rest,
                    output := out ++ ("\nInvalid command\n".toList.map Char.toNat ++
                      ['\n'.toNat]) } := by
  have hm : c % 256 = c := Nat.mod_eq_of_lt hc
  simp only [Char.reduceToNat, List.mem_cons, List.mem_singleton, List.not_mem_nil,
    or_false, not_or] at hno
  obtain ⟨h1, h2, h3, h4, h5, h6, h7, h8, h9, h10⟩ := hno
  refine ⟨{ zones := zones, command := Function.update command 0 c,
            con := puts "\nInvalid command\n" { input := rest, output := out } }, ?_, rfl, rfl⟩
  simp [core1_iter, getchar, select_field, hm, h1, h2, h3, h4, h5, h6, h7, h8, h9, h10]

/-- Witness for C11: the byte `x`. -/
theorem unknown_command_witness :
    ('x'.toNat < 256 ∧
      'x'.toNat ∉ ['\n'.toNat, '\r'.toNat, 'r'.toNat, 'R'.toNat, 'e'.toNat, 'E'.toNat,
        'l'.toNat, 'L'.toNat, 'd'.toNat, 'D'.toNat]) ∧
      ∃ st',
        core1_iter { zones := zones_short, command := fun _ => 0,
                     con := { input := 'x'.toNat :: [7], output := [1] } } = some st' ∧
          st'.zones = zones_short ∧
          st'.con = { input := [7],
                      output := [1] ++ ("\nInvalid command\n".toList.map Char.toNat ++
                        ['\n'.toNat]) } :=
  ⟨by decide, unknown_command zones_short (fun _ => 0) 'x'.toNat [7] [1] (by decide) (by decide)⟩

/-- Counterexample for C14: on a leading `\n` over `zones_short` one newline is
sent, so the iteration does not end with the output as it was. -/
theorem line_noise_silent_counterexample :
    ¬ ∃ st',
        core1_iter { zones := zones_short, command := fun _ => 0,
                     con := { input := ['\n'.toNat], output := [] } } = some st' ∧
          st'.zones = zones_short ∧ st'.con = { input := [], output := [] } := by
  rintro ⟨st', h, _, hcon⟩
  have hout :
      (core1_iter { zones := zones_short, command := fun _ => 0,
                    con := { input := ['\n'.toNat], output := [] } }).map
        (fun st => st.con.output) = some ['\n'.toNat] := by decide
  rw [h, Option.map_some', hcon] at hout
  simp at hout

/-- C14, as the code has it (line-noise tolerance): on a leading `\n` or `\r`
one iteration of the command loop consumes only that byte, leaves the whole
zone table unchanged, and sends exactly one newline character. -/
theorem line_noise_newline (zones : ZoneTable) (command : Nat → Nat) (rest out : List Nat) :
    (∃ st',
        core1_iter { zones := zones, command := command,
                     con := { input := '\n'.toNat :: rest, output := out } } = some st' ∧
          st'.zones = zones ∧
          st'.con = { input := rest, output := out ++ ['\n'.toNat] }) ∧
      (∃ st',
        core1_iter { zones := zones, command := command,
                     con := { input := '\r'.toNat :: rest, output := out } } = some st' ∧
          st'.zones = zones ∧
          st'.con = { input := rest, output := out ++ ['\n'.toNat] }) := by
  constructor
  · exact ⟨{ zones := zones, command := Function.update command 0 '\n'.toNat,
             con := { input := rest, output := out ++ ['\n'.toNat] } },
      by simp [core1_iter, getchar, putchar], rfl, rfl⟩
  · exact ⟨{ zones := zones, command := Function.update command 0 '\r'.toNat,
             con := { input := rest, output := out ++ ['\n'.toNat] } },
      by simp [core1_iter, getchar, putchar], rfl, rfl⟩

/-- The text branch on an index line ended by a terminator `nl` after fewer
than 3 characters: the branch ends in `continue` after the diagnostic, and
the input after the terminator is left unread. -/
theorem read_text_abort (w : Nat) (command : Nat → Nat) (nl : Nat) (il rest out : List Nat)
    (hil : ∀ c ∈ il, line_char c) (hlen : il.length < 3)
    (hnl : nl = '\n'.toNat ∨ nl = '\r'.toNat) :
    read_text w command { input := il ++ nl :: rest, output := out } =
      some (none, store_chars command 0 il,
        puts "Command too short\n"
          { input := rest,
            output := out ++ [command 0 % 2 ^ 8] ++ il ++ terminator_echo nl }) := by
  have e1 := get_line_from_short il command 0 3 nl rest (out ++ [command 0 % 2 ^ 8]) hil hlen hnl
  simp only [Nat.zero_add] at e1
  simp only [read_text, get_line, putchar, e1]
  simp [hlen]

/-- C12 (too-short index line): for an interactive command `e`, `l` or `d`
whose index line is ended by `\n` or `\r` after fewer than 3 characters, one
iteration of the command loop returns with the whole zone table unchanged,
having consumed the command letter, the index characters and the terminator
only (no value line is read), and having sent their echo followed by the
diagnostic `puts("Command too short\n")`. -/
theorem short_index_line_aborts (zones : ZoneTable) (command : Nat → Nat) (cmd w f nl : Nat)
    (il rest out : List Nat) (hsel : select_field cmd = some (true, w, f))
    (hil : ∀ c ∈ il, line_char c) (hlen : il.length < 3)
    (hnl : nl = '\n'.toNat ∨ nl = '\r'.toNat) :
    ∃ st',
      core1_iter { zones := zones, command := command,
                   con := { input := cmd :: (il ++ nl :: rest), output := out } } = some st' ∧
        st'.zones = zones ∧
        st'.con = { input := rest,
                    output := out ++ [cmd] ++ il ++ terminator_echo nl ++
                      ("Command too short\n".toList.map Char.toNat ++ ['\n'.toNat]) } := by
  have hcmd : cmd % 2 ^ 8 = cmd := by
    unfold select_field at hsel
    simp only [Char.reduceToNat] at hsel
    split_ifs at hsel <;> (subst cmd; rfl)
  have hrt := read_text_abort w (Function.update command 0 cmd) nl il rest out hil hlen hnl
  rw [Function.update_same, hcmd] at hrt
  rw [core1_iter_text zones command cmd w f _ out hsel, hrt]
  exact ⟨_, rfl, rfl, rfl⟩

/-- Witness for C12: `e2` then a carriage return, with a value line waiting in
the input. -/
theorem short_index_line_aborts_witness :
    (select_field 'e'.toNat = some (true, 4, 2) ∧ (∀ c ∈ ['2'.toNat], line_char c) ∧
        ['2'.toNat].length < 3 ∧ ('\r'.toNat = '\n'.toNat ∨ '\r'.toNat = '\r'.toNat)) ∧
      ∃ st',
        core1_iter { zones := zones_short, command := fun _ => 0,
                     con := { input := 'e'.toNat ::
                                (['2'.toNat] ++ '\r'.toNat :: "00FF8010".toList.map Char.toNat),
                              output := [] } } = some st' ∧
          st'.zones = zones_short ∧
          st'.con = { input := "00FF8010".toList.map Char.toNat,
                      output := [] ++ ['e'.toNat] ++ ['2'.toNat] ++ terminator_echo '\r'.toNat ++
                        ("Command too short\n".toList.map Char.toNat ++ ['\n'.toNat]) } :=
  ⟨by decide,
    short_index_line_aborts zones_short (fun _ => 0) 'e'.toNat 4 2 '\r'.toNat ['2'.toNat]
      ("00FF8010".toList.map Char.toNat) [] (by decide) (by decide) (by decide) (by decide)⟩

theorem select_field_text (cmd w f : Nat) (hsel : select_field cmd = some (true, w, f)) :
    (cmd = 'e'.toNat ∧ w = 4 ∧ f = 2) ∨ (cmd = 'l'.toNat ∧ w = 2 ∧ f = 1) ∨
      (cmd = 'd'.toNat ∧ w = 2 ∧ f = 0) := by
  unfold select_field at hsel
  split_ifs at hsel with h1 h2 h3 h4 h5 h6 <;>
    simp only [Option.some.injEq, Prod.mk.injEq, Bool.false_eq_true, false_and,
      true_and] at hsel
  · exact Or.inl ⟨h1, hsel.1.symm, hsel.2.symm⟩
  · exact Or.inr (Or.inl ⟨h3, hsel.1.symm, hsel.2.symm⟩)
  · exact Or.inr (Or.inr ⟨h5, hsel.1.symm, hsel.2.symm⟩)

theorem select_field_binary (cmd w f : Nat) (hsel : select_field cmd = some (false, w, f)) :
    (cmd = 'E'.toNat ∧ w = 4 ∧ f = 2) ∨ (cmd = 'L'.toNat ∧ w = 2 ∧ f = 1) ∨
      (cmd = 'D'.toNat ∧ w = 2 ∧ f = 0) := by
  unfold select_field at hsel
  split_ifs at hsel with h1 h2 h3 h4 h5 h6 <;>
    simp only [Option.some.injEq, Prod.mk.injEq, Bool.true_eq_false, false_and,
      true_and] at hsel
  · exact Or.inl ⟨h2, hsel.1.symm, hsel.2.symm⟩
  · exact Or.inr (Or.inl ⟨h4, hsel.1.symm, hsel.2.symm⟩)
  · exact Or.inr (Or.inr ⟨h6, hsel.1.symm, hsel.2.symm⟩)

theorem hex_value_lt_of_length (l : List Nat) (hl : ∀ c ∈ l, is_hex_digit c) (n : Nat)
    (hn : l.length ≤ n) : hex_value l < 16 ^ n :=
  lt_of_lt_of_le (hex_value_lt l hl) (Nat.pow_le_pow_right (by norm_num) hn)

/-- C13 (short value line): for an interactive command `e`, `l` or `d` whose
index line parses to a strip `s < 5` and a zone `z < 24`, and whose value line
is `k < 2 * width` hexadecimal digits followed by `\n` or `\r`, one iteration
of the command loop sets the field named by the command (`e`: effect, `l`:
on, `d`: off) of zone `z` of strip `s` to the value of the `k` digits read as
a hexadecimal number (0 when `k = 0`), changes no other field, and consumes
the command up to and including the terminator. -/
theorem short_value_line_applies (zones : ZoneTable) (command : Nat → Nat)
    (cmd w f nl c0 c1 c2 : Nat) (vl rest out : List Nat)
    (s : Fin LED_STRIPS) (z : Fin MAX_ZONES_PER_STRIP)
    (hsel : select_field cmd = some (true, w, f))
    (h0 : line_char c0) (h1 : line_char c1) (h2 : line_char c2)
    (hs : char_to_byte c0 = s.val)
    (hz : hex_to_uint (fun k => [c1, c2].getD k 0) 2 % 2 ^ 8 = z.val)
    (hvl : ∀ c ∈ vl, is_hex_digit c) (hlen : vl.length < w * 2)
    (hnl : nl = '\n'.toNat ∨ nl = '\r'.toNat) :
    ∃ st',
      core1_iter { zones := zones, command := command,
                   con := { input := cmd :: c0 :: c1 :: c2 :: (vl ++ nl :: rest),
                            output := out } } = some st' ∧
        st'.zones = Function.update zones s (Function.update (zones s) z
          (if cmd = 'e'.toNat then { zones s z with effect := hex_value vl }
           else if cmd = 'l'.toNat then { zones s z with on_ := hex_value vl }
           else { zones s z with off := hex_value vl })) ∧
        st'.con = { input := rest,
                    output := out ++ [cmd] ++ [c0, c1, c2] ++ vl ++ terminator_echo nl } := by
  have hw : w ≤ 4 := by
    rcases select_field_text cmd w f hsel with h | h | h <;> omega
  have hcmd : cmd % 2 ^ 8 = cmd := by
    rcases select_field_text cmd w f hsel with h | h | h <;> (rw [h.1]; rfl)
  have hrt := read_text_short w (Function.update command 0 cmd) c0 c1 c2 nl vl rest out
    h0 h1 h2 (fun c hc => is_hex_digit_line_char c (hvl c hc)) hlen hnl
  rw [Function.update_same, hcmd, hs, hz, hex_to_uint_list vl (by omega) hvl] at hrt
  rw [core1_iter_text zones command cmd w f _ out hsel, hrt]
  simp only [store_field_ok zones true f (hex_value vl) s z]
  refine ⟨_, rfl, ?_, rfl⟩
  have h167 : (16 : Nat) ^ 7 = 268435456 := by norm_num
  have h163 : (16 : Nat) ^ 3 = 4096 := by norm_num
  rcases select_field_text cmd w f hsel with ⟨hc, hw4, hf⟩ | ⟨hc, hw2, hf⟩ | ⟨hc, hw2, hf⟩
  · have hv := hex_value_lt_of_length vl hvl 7 (by omega)
    rw [h167] at hv
    have hm : hex_value vl % 4294967296 = hex_value vl := Nat.mod_eq_of_lt (by omega)
    subst hc hf
    simp [hm]
  · have hv := hex_value_lt_of_length vl hvl 3 (by omega)
    rw [h163] at hv
    have hm : hex_value vl % 65536 = hex_value vl := Nat.mod_eq_of_lt (by omega)
    subst hc hf
    simp [hm]
  · have hv := hex_value_lt_of_length vl hvl 3 (by omega)
    rw [h163] at hv
    have hm : hex_value vl % 65536 = hex_value vl := Nat.mod_eq_of_lt (by omega)
    subst hc hf
    simp [hm]

/-- Witness for C13: `l205` then `C8` and a newline sets the `on` field of
strip 2, zone 5 to `0xC8`. -/
theorem short_value_line_applies_witness :
    (select_field 'l'.toNat = some (true, 2, 1) ∧
        line_char '2'.toNat ∧ line_char '0'.toNat ∧ line_char '5'.toNat ∧
        char_to_byte '2'.toNat = (2 : Fin LED_STRIPS).val ∧
        hex_to_uint (fun k => ['0'.toNat, '5'.toNat].getD k 0) 2 % 2 ^ 8 =
          (5 : Fin MAX_ZONES_PER_STRIP).val ∧
        (∀ c ∈ ['C'.toNat, '8'.toNat], is_hex_digit c) ∧
        ['C'.toNat, '8'.toNat].length < 2 * 2 ∧
        ('\n'.toNat = '\n'.toNat ∨ '\n'.toNat = '\r'.toNat)) ∧
      ∃ st',
        core1_iter { zones := zones_short, command := fun _ => 0,
                     con := { input := 'l'.toNat :: '2'.toNat :: '0'.toNat :: '5'.toNat ::
                                (['C'.toNat, '8'.toNat] ++ '\n'.toNat :: []),
                              output := [] } } = some st' ∧
          st'.zones = Function.update zones_short 2 (Function.update (zones_short 2) 5
            (if 'l'.toNat = 'e'.toNat then
               { zones_short 2 5 with effect := hex_value ['C'.toNat, '8'.toNat] }
             else if 'l'.toNat = 'l'.toNat then
               { zones_short 2 5 with on_ := hex_value ['C'.toNat, '8'.toNat] }
             else { zones_short 2 5 with off := hex_value ['C'.toNat, '8'.toNat] })) ∧
          st'.con = { input := [],
                      output := [] ++ ['l'.toNat] ++ ['2'.toNat, '0'.toNat, '5'.toNat] ++
                        ['C'.toNat, '8'.toNat] ++ terminator_echo '\n'.toNat } :=
  ⟨by decide,
    short_value_line_applies zones_short (fun _ => 0) 'l'.toNat 2 1 '\n'.toNat '2'.toNat
      '0'.toNat '5'.toNat ['C'.toNat, '8'.toNat] [] [] 2 5 (by decide) (by decide) (by decide)
      (by decide) (by decide) (by decide) (by decide) (by decide) (by decide)⟩

/-- The short value lines of the specification's reading, evaluated: two digits
give `0xC8`, an empty value line gives 0. -/
theorem short_value_line_example :
    (core1_iter { zones := zones_short, command := fun _ => 0,
                  con := { input := "l205C8\n".toList.map Char.toNat, output := [] } }).map
        (fun st => ((st.zones 2 5).on_, (st.zones 2 5).off, (st.zones 2 5).effect,
          st.con.input)) = some (200, 3, 0x00FF8010, []) ∧
    (core1_iter { zones := zones_short, command := fun _ => 0,
                  con := { input := "e205\r".toList.map Char.toNat, output := [] } }).map
        (fun st => ((st.zones 2 5).on_, (st.zones 2 5).off, (st.zones 2 5).effect,
          st.con.input)) = some (4, 3, 0, []) := by
  decide

/-- The 16-bit value of the binary branch: the two fresh bytes, whatever chars
the buffer holds at indices 2 and 3. -/
theorem two_byte_value (b0 b1 c2 c3 : Nat) (h0 : b0 < 256) (h1 : b1 < 256)
    (h2 : c2 < 256) (h3 : c3 < 256) :
    (((((b0 <<< 24) % 2 ^ 32) ||| ((b1 <<< 16) % 2 ^ 32)) ||| ((c2 <<< 8) % 2 ^ 32)) ||| c3) >>>
        ((4 - 2) * 8) = b0 * 256 + b1 := by
  rw [big_endian_value b0 b1 c2 c3 h0 h1 h2 h3, Nat.shiftRight_eq_div_pow]
  norm_num
  omega

/-- C15 (two-byte binary values): the binary command `L` (resp. `D`) followed by
a strip byte `s < 5`, a zone byte `z < 24` and two value bytes sets
`zones[s][z].on` (resp. `.off`) to `b0 * 256 + b1` and changes nothing else,
consumes exactly these five bytes and sends nothing, for every content of
the `char` buffer `command` left by earlier commands. -/
theorem binary_two_byte_round_trip (zones : ZoneTable) (command : Nat → Nat)
    (hbuf : ∀ k, k < 8 → command k < 256)
    (rest out : List Nat) (s : Fin LED_STRIPS) (z : Fin MAX_ZONES_PER_STRIP)
    (b0 b1 : Nat) (h0 : b0 < 256) (h1 : b1 < 256) :
    (∃ st',
        core1_iter
            { zones := zones, command := command,
              con := { input := 'L'.toNat :: s.val :: z.val :: b0 :: b1 :: rest,
                       output := out } } = some st' ∧
          st'.zones = Function.update zones s (Function.update (zones s) z
            { zones s z with on_ := b0 * 256 + b1 }) ∧
          st'.con = { input := rest, output := out }) ∧
      (∃ st',
        core1_iter
            { zones := zones, command := command,
              con := { input := 'D'.toNat :: s.val :: z.val :: b0 :: b1 :: rest,
                       output := out } } = some st' ∧
          st'.zones = Function.update zones s (Function.update (zones s) z
            { zones s z with off := b0 * 256 + b1 }) ∧
          st'.con = { input := rest, output := out }) := by
  have hs : s.val < 5 := s.isLt
  have hz : z.val < 24 := z.isLt
  have hs8 : s.val % 256 = s.val := Nat.mod_eq_of_lt (by omega)
  have hz8 : z.val % 256 = z.val := Nat.mod_eq_of_lt (by omega)
  have hb0 : b0 % 256 = b0 := Nat.mod_eq_of_lt (by omega)
  have hb1 : b1 % 256 = b1 := Nat.mod_eq_of_lt (by omega)
  have hns : ¬ (LED_STRIPS ≤ s.val) := Nat.not_le.mpr s.isLt
  have hnz : ¬ (MAX_ZONES_PER_STRIP ≤ z.val) := Nat.not_le.mpr z.isLt
  have hv := two_byte_value b0 b1 (command 2) (command 3) h0 h1 (hbuf 2 (by norm_num))
    (hbuf 3 (by norm_num))
  norm_num at hv
  have hv16 : (b0 * 256 + b1) % 65536 = b0 * 256 + b1 := Nat.mod_eq_of_lt (by omega)
  constructor
  · simp [core1_iter, getchar, select_field, read_binary, get_chars_silent,
      get_chars_silent_from, store_field, hs8, hz8, hb0, hb1, hns, hnz, hv, hv16]
  · simp [core1_iter, getchar, select_field, read_binary, get_chars_silent,
      get_chars_silent_from, store_field, hs8, hz8, hb0, hb1, hns, hnz, hv, hv16]

/-- Witness for C15: `L 0x02 0x05 0x00 0xC8` and `D 0x02 0x05 0x00 0xC8` over a
buffer that still holds `0xFF` bytes. -/
theorem binary_two_byte_round_trip_witness :
    ((∀ k, k < 8 → (fun _ => 255 : Nat → Nat) k < 256) ∧ 0x00 < 256 ∧ 0xC8 < 256) ∧
      ((∃ st',
          core1_iter
              { zones := zones_short, command := fun _ => 255,
                con := { input := 'L'.toNat :: (2 : Fin LED_STRIPS).val ::
                           (5 : Fin MAX_ZONES_PER_STRIP).val :: 0x00 :: 0xC8 :: [],
                         output := [] } } = some st' ∧
            st'.zones = Function.update zones_short 2 (Function.update (zones_short 2) 5
              { zones_short 2 5 with on_ := 0x00 * 256 + 0xC8 }) ∧
            st'.con = { input := [], output := [] }) ∧
        (∃ st',
          core1_iter
              { zones := zones_short, command := fun _ => 255,
                con := { input := 'D'.toNat :: (2 : Fin LED_STRIPS).val ::
                           (5 : Fin MAX_ZONES_PER_STRIP).val :: 0x00 :: 0xC8 :: [],
                         output := [] } } = some st' ∧
            st'.zones = Function.update zones_short 2 (Function.update (zones_short 2) 5
              { zones_short 2 5 with off := 0x00 * 256 + 0xC8 }) ∧
            st'.con = { input := [], output := [] })) :=
  ⟨⟨fun _ _ => by norm_num, by norm_num, by norm_num⟩,
    binary_two_byte_round_trip zones_short (fun _ => 255) (fun _ _ => by norm_num) [] [] 2 5
      0x00 0xC8 (by norm_num) (by norm_num)⟩

/-- Two commands in a row, evaluated: `E` leaves `0xFF` in all four value slots
of the buffer, and the following `L` still stores `0x00C8`. -/
theorem binary_stale_bytes_example :
    ((core1_iter
        { zones := zones_short, command := fun _ => 0,
          con := { input := ['E'.toNat, 1, 0, 0xFF, 0xFF, 0xFF, 0xFF, 'L'.toNat, 2, 5, 0x00,
                     0xC8],
                   output := [] } }).bind core1_iter).map
      (fun st => ((st.zones 2 5).on_, st.command 2, st.command 3, st.con.input,
        st.con.output)) = some (200, 0xFF, 0xFF, [], []) := by
  decide

/-- C19 (binary framing): a binary-mode command `E`, `L` or `D`, whatever its
strip and zone bytes, consumes exactly the command byte, the strip byte, the
zone byte and `width` value bytes (`width` 4 for `E`, 2 for `L` and `D`), and
sends nothing, whether the bounds checks accept it or not; the input left is
the byte sequence that follows the value. -/
theorem binary_framing (zones : ZoneTable) (command : Nat → Nat) (cmd w f sb zb : Nat)
    (vs rest out : List Nat) (hsel : select_field cmd = some (false, w, f))
    (hlen : vs.length = w) :
    w = (if cmd = 'E'.toNat then 4 else 2) ∧
      ∃ st',
        core1_iter { zones := zones, command := command,
                     con := { input := cmd :: sb :: zb :: (vs ++ rest), output := out } } =
            some st' ∧
          st'.con = { input := rest, output := out } ∧
          (cmd :: sb :: zb :: (vs ++ rest)).length = 3 + w + st'.con.input.length := by
  constructor
  · rcases select_field_binary cmd w f hsel with h | h | h <;>
      (obtain ⟨hc, hw, _⟩ := h; subst hc hw; simp)
  · obtain ⟨value, command', hrb⟩ :=
      read_binary_spec w (Function.update command 0 cmd) sb zb vs rest out hlen
    rw [core1_iter_binary zones command cmd w f _ out hsel, hrb]
    have hcon : (store_field zones false f (sb % 2 ^ 8) (zb % 2 ^ 8) value
        { input := rest, output := out }).2 = { input := rest, output := out } := by
      unfold store_field
      split
      · rfl
      · split <;> rfl
    refine ⟨_, rfl, hcon, ?_⟩
    simp only [hcon, List.length_cons, List.length_append, hlen]
    omega

/-- Witness for C19: `E` with the out-of-range strip byte 9, followed by the
next command. -/
theorem binary_framing_witness :
    (select_field 'E'.toNat = some (false, 4, 2) ∧ [1, 2, 3, 4].length = 4) ∧
      (4 = (if 'E'.toNat = 'E'.toNat then 4 else 2) ∧
        ∃ st',
          core1_iter { zones := zones_short, command := fun _ => 0,
                       con := { input := 'E'.toNat :: 9 :: 200 :: ([1, 2, 3, 4] ++ ['R'.toNat]),
                                output := [] } } = some st' ∧
            st'.con = { input := ['R'.toNat], output := [] } ∧
            ('E'.toNat :: 9 :: 200 :: ([1, 2, 3, 4] ++ ['R'.toNat])).length =
              3 + 4 + st'.con.input.length) :=
  ⟨by decide,
    binary_framing zones_short (fun _ => 0) 'E'.toNat 4 2 9 200 [1, 2, 3, 4] ['R'.toNat] []
      (by decide) (by decide)⟩

/-- The value table of the 22 hexadecimal digit characters, and the value of two
digit strings read most significant digit first. -/
theorem hex_digit_value_table :
    "0123456789abcdefABCDEF".toList.map (fun c => hex_digit_value c.toNat) =
        [0, 1, 2, 3, 4, 5, 6, 7, 8, 9, 10, 11, 12, 13, 14, 15, 10, 11, 12, 13, 14, 15] ∧
      hex_value [] = 0 ∧
      hex_value ("00fF8010".toList.map Char.toNat) = 0x00FF8010 ∧
      hex_value ("c8".toList.map Char.toNat) = 200 := by
  decide

/-- C20 (hex parsing): on a string of at most 8 hexadecimal digit characters
(`0-9`, `a-f`, `A-F`) `hex_to_uint` returns the value of the string as a
base-16 number, most significant digit first and 0 for the empty string; and
on a single hexadecimal digit character `char_to_byte` returns the value of
that digit, between 0 and 15. -/
theorem hex_parsing :
    (∀ (s : Nat → Nat) (l : List Nat), l.length ≤ 8 →
        (∀ i, i < l.length → s i = l.getD i 0) → (∀ c ∈ l, is_hex_digit c) →
        hex_to_uint s l.length = hex_value l) ∧
      (∀ s : Nat → Nat, hex_to_uint s 0 = 0) ∧
      (∀ c : Nat, is_hex_digit c →
        char_to_byte c = hex_digit_value c ∧ hex_digit_value c < 16) := by
  refine ⟨fun s l hlen hs hl => hex_to_uint_spec s l hlen hs hl, ?_, ?_⟩
  · intro s
    simp [hex_to_uint]
  · intro c h
    refine ⟨?_, (hex_digit_eq c h).2⟩
    unfold is_hex_digit at h
    unfold char_to_byte hex_digit_value
    simp only [Char.reduceToNat] at h ⊢
    rcases h with h | h | h
    · rw [if_pos h, if_pos h.2]
      exact Nat.mod_eq_of_lt (by omega)
    · rw [if_neg (by omega), if_pos (by omega), if_neg (by omega), if_neg (by omega)]
      exact Nat.mod_eq_of_lt (by omega)
    · rw [if_neg (by omega), if_neg (by omega), if_pos (by omega), if_neg (by omega),
        if_pos h.2]
      exact Nat.mod_eq_of_lt (by omega)

/-- Witness for C20: the string `00fF8010` and the digit `F`. -/
theorem hex_parsing_witness :
    (("00fF8010".toList.map Char.toNat).length ≤ 8 ∧
        (∀ c ∈ "00fF8010".toList.map Char.toNat, is_hex_digit c) ∧ is_hex_digit 'F'.toNat) ∧
      hex_to_uint (fun i => ("00fF8010".toList.map Char.toNat).getD i 0)
          ("00fF8010".toList.map Char.toNat).length =
        hex_value ("00fF8010".toList.map Char.toNat) ∧
      (char_to_byte 'F'.toNat = hex_digit_value 'F'.toNat ∧ hex_digit_value 'F'.toNat < 16) :=
  ⟨by decide,
    hex_parsing.1 _ ("00fF8010".toList.map Char.toNat) (by decide) (fun _ _ => rfl)
      (by decide),
    hex_parsing.2.2 'F'.toNat (by decide)⟩

/-! ## Theorems: rendered frames -/

theorem render_pixel_lt (t : Int) (offset e : Nat) (he : e < 2 ^ 32) :
    render_pixel t offset e < 2 ^ 24 := by
  unfold render_pixel
  split
  · rename_i h
    have h0 := (top_byte_zero_iff e he).mp h
    by_contra hge
    have : 0 < e / 2 ^ 24 := Nat.div_pos (by omega) (by norm_num)
    omega
  · decide

/-- A 24-bit pixel is rebuilt from the transposed frame. -/
theorem inverse_translate_apply (pixels : PixelBuffer) (fb0 : FrameBuffer)
    (s : Fin LED_STRIPS) (p : Fin MAX_STRIP_LENGTH) (h24 : pixels s p < 2 ^ 24) :
    inverse_transpose (translate_to_framebuffer pixels fb0) s p = pixels s p := by
  apply Nat.eq_of_testBit_eq
  intro i
  unfold inverse_transpose
  rw [inverse_fold_testBit]
  simp only [Nat.zero_testBit, Bool.false_or, List.mem_finRange, true_and, translate_strip_bit]
  by_cases hi : i < 24
  · by_cases ht : (pixels s p).testBit i = true
    · rw [ht, decide_eq_true_eq]
      refine ⟨⟨23 - i, by omega⟩, by simp; omega, ?_⟩
      have : 23 - (23 - i) = i := by omega
      simpa [this] using ht
    · have ht2 : (pixels s p).testBit i = false := by simpa using ht
      rw [ht2, decide_eq_false_iff_not]
      rintro ⟨b, hbi, hb⟩
      rw [hbi] at hb
      exact ht hb
  · have hpow : (2 : Nat) ^ 24 ≤ 2 ^ i := Nat.pow_le_pow_right (by norm_num) (by omega)
    rw [Nat.testBit_lt_two_pow (lt_of_lt_of_le h24 hpow), decide_eq_false_iff_not]
    rintro ⟨b, hbi, _⟩
    omega

/-- C18 (rendered pixels are 24-bit): for every zone table with 32-bit effect
codes and 16-bit `off` and `on`, every frame index and every prior pixel
buffer, `render_zones` returns a buffer whose every entry is below `2 ^ 24`,
and transposing that buffer and rebuilding the pixels from the bit planes
gives the rendered buffer back. -/
theorem rendered_pixels_24bit (t : Int) (zt : ZoneTable) (hwf : zt.wf) (px0 : PixelBuffer)
    (fb0 : FrameBuffer) :
    ∃ px, render_zones t zt px0 = some px ∧
      (∀ s p, px s p < 2 ^ 24) ∧
      inverse_transpose (translate_to_framebuffer px fb0) = px := by
  obtain ⟨px, he, hsp⟩ := render_zones_spec t zt hwf px0
  have hlt : ∀ s p, px s p < 2 ^ 24 := by
    intro s p
    by_cases hex : ∃ k : Fin MAX_ZONES_PER_STRIP, in_zone zt s k p.val
    · obtain ⟨k, hk⟩ := hex
      rw [(hsp s p).1 k hk]
      exact render_pixel_lt _ _ _ (hwf s k).1
    · have hnone : ∀ k : Fin MAX_ZONES_PER_STRIP, ¬ in_zone zt s k p.val :=
        fun k hk => hex ⟨k, hk⟩
      rw [(hsp s p).2 hnone]
      norm_num
  refine ⟨px, he, hlt, ?_⟩
  funext s p
  exact inverse_translate_apply px fb0 s p (hlt s p)

/-- Witness for C18: the frame of `zones_long`, whose effect codes all have a
nonzero top byte. -/
theorem rendered_pixels_24bit_witness :
    zones_long.wf ∧
      ∃ px, render_zones 7 zones_long (fun _ _ => 0xFFFFFFFF) = some px ∧
        (∀ s p, px s p < 2 ^ 24) ∧
        inverse_transpose (translate_to_framebuffer px (fun _ => ⟨fun _ => 0xFFFFFFFF⟩)) = px :=
  ⟨zones_long_wf,
    rendered_pixels_24bit 7 zones_long zones_long_wf (fun _ _ => 0xFFFFFFFF)
      (fun _ => ⟨fun _ => 0xFFFFFFFF⟩)⟩

/-- C16 (no stale pixels): `render_zones` returns the same buffer from any two
prior contents of the pixel buffer; and in the frame rendered over the buffer
left by a frame of any other zone table, every position outside all lit
ranges of the current table holds 0, whatever the previous table lit
there. -/
theorem render_no_stale_pixels (t : Int) (zt : ZoneTable) (px1 px2 : PixelBuffer) :
    render_zones t zt px1 = render_zones t zt px2 ∧
      ∀ zt_prev : ZoneTable, zt_prev.wf → zt.wf →
        ∃ prev px, render_zones (t - 1) zt_prev px1 = some prev ∧
          render_zones t zt prev = some px ∧
          ∀ (s : Fin LED_STRIPS) (p : Fin MAX_STRIP_LENGTH),
            (∀ k : Fin MAX_ZONES_PER_STRIP, ¬ in_zone zt s k p.val) → px s p = 0 := by
  refine ⟨rfl, ?_⟩
  intro zt_prev hprev hwf
  obtain ⟨prev, hp, _⟩ := render_zones_spec (t - 1) zt_prev hprev px1
  obtain ⟨px, he, hsp⟩ := render_zones_spec t zt hwf prev
  exact ⟨prev, px, hp, he, fun s p hnone => (hsp s p).2 hnone⟩

/-- Witness for C16: the frame of `zones_short` rendered after a frame of
`zones_long`. -/
theorem render_no_stale_pixels_witness :
    (zones_long.wf ∧ zones_short.wf) ∧
      ∃ prev px, render_zones (1 - 1) zones_long (fun _ _ => 9) = some prev ∧
        render_zones 1 zones_short prev = some px ∧
        ∀ (s : Fin LED_STRIPS) (p : Fin MAX_STRIP_LENGTH),
          (∀ k : Fin MAX_ZONES_PER_STRIP, ¬ in_zone zones_short s k p.val) → px s p = 0 :=
  ⟨⟨zones_long_wf, zones_short_wf⟩,
    (render_no_stale_pixels 1 zones_short (fun _ _ => 9) (fun _ _ => 0)).2 zones_long
      zones_long_wf zones_short_wf⟩

set_option maxRecDepth 8192 in
/-- The two frames of the witness, evaluated at positions 295 and 299 of strip
2: lit in red by `zones_long`, dark after `zones_short` took over. -/
theorem render_no_stale_pixels_example :
    ((render_zones 0 zones_long (fun _ _ => 9)).bind (fun prev =>
        (render_zones 1 zones_short prev).map (fun px =>
          [prev 2 ⟨295, by decide⟩, prev 2 ⟨299, by decide⟩,
            px 2 ⟨295, by decide⟩, px 2 ⟨299, by decide⟩, px 2 ⟨3, by decide⟩]))) =
      some [0xFF0000, 0xFF0000, 0, 0, 0x00FF8010] := by
  decide

/-! ## Theorems: buffer safety -/

theorem fin2_xor_one_ne (c : Fin 2) : c ^^^ 1 ≠ c := by
  revert c; decide

theorem fin2_xor_one_xor_one (c : Fin 2) : (c ^^^ 1) ^^^ 1 = c := by
  revert c; decide

theorem buffer_inv_init : buffer_inv Pipeline.init := by
  unfold buffer_inv Pipeline.init
  simp

/-- A step keeps the relation between the frame loop and the instance in
flight, given that the transfer token is single. -/
theorem buffer_inv_step (e : Event) (st st' : Pipeline) (h : step e st = some st')
    (ht : tokens st = 1) (hj : buffer_inv st) : buffer_inv st' := by
  obtain ⟨pc, t, cur, sem, dma, alarm⟩ := st
  unfold buffer_inv at hj ⊢
  unfold tokens at ht
  simp only at hj ht
  cases e with
  | main =>
    cases pc with
    | transpose =>
      simp only [step, Option.some.injEq] at h
      subst h
      simpa using hj
    | acquire =>
      simp only [step] at h
      split at h
      · rename_i hsem
        simp only [Option.some.injEq] at h
        subst h
        simp
      · cases h
    | start =>
      simp only [step, Option.some.injEq] at h
      subst h
      have hal : alarm = none := by
        cases alarm with
        | none => rfl
        | some j => cases dma <;> simp at ht
      subst hal
      simp only [reduceCtorEq, or_self, false_implies, true_implies, true_and, ne_eq,
        Option.some.injEq, not_false_eq_true, and_true]
      exact fun hc => fin2_xor_one_ne cur hc.symm
    | flip =>
      simp only [step, Option.some.injEq] at h
      subst h
      simpa using hj
  | dma_complete =>
    cases dma with
    | none => simp [step] at h
    | some i =>
      simp only [step, Option.some.injEq] at h
      subst h
      cases pc <;> simp at hj ⊢ <;> tauto
  | reset_delay_complete =>
    cases alarm with
    | none => simp [step] at h
    | some i =>
      simp only [step, Option.some.injEq] at h
      subst h
      cases pc <;> simp at hj ⊢ <;> tauto

theorem buffer_inv_run (es : List Event) :
    ∀ st st', run es st = some st' → tokens st = 1 → buffer_inv st →
      tokens st' = 1 ∧ buffer_inv st' := by
  induction es with
  | nil =>
    intro st st' h ht hj
    simp only [run, Option.some.injEq] at h
    subst h
    exact ⟨ht, hj⟩
  | cons e es ih =>
    intro st st' h ht hj
    simp only [run] at h
    cases hs : step e st with
    | none => rw [hs] at h; cases h
    | some st1 =>
      rw [hs, Option.some_bind] at h
      exact ih st1 st' h (tokens_step e st st1 hs ht) (buffer_inv_step e st st1 hs ht hj)

/-- C17 (buffer safety): in every state reached from the initial state along
any schedule of frame-loop steps, completion interrupts and timer expiries,
when the frame loop is at the transposition into
`framebuffers[current_framebuffer]`, that instance is `Idle`: no transfer in
flight reads it and no quiet period is pending for it. -/
theorem buffer_safety (es : List Event) (st : Pipeline)
    (h : run es Pipeline.init = some st) (hpc : st.pc = MainPc.transpose) :
    instance_state st st.current_framebuffer = BufState.Idle ∧
      st.dma ≠ some st.current_framebuffer ∧ st.alarm ≠ some st.current_framebuffer := by
  obtain ⟨_, hj⟩ := buffer_inv_run es _ _ h tokens_init buffer_inv_init
  obtain ⟨hd, ha⟩ := hj.1 (Or.inl hpc)
  refine ⟨?_, hd, ha⟩
  unfold instance_state
  rw [if_neg hd, if_neg ha]

/-- Witness for C17: the third frame transposes into instance 0 again while
instance 1 is being streamed. -/
theorem buffer_safety_witness :
    (run [Event.main, Event.main, Event.main, Event.main, Event.main,
            Event.dma_complete, Event.reset_delay_complete, Event.main, Event.main,
            Event.main]
          Pipeline.init =
        some { pc := .transpose, t := 2, current_framebuffer := 0, sem := 0, dma := some 1,
               alarm := none } ∧
      (⟨.transpose, 2, 0, 0, some 1, none⟩ : Pipeline).pc = MainPc.transpose) ∧
      (instance_state ⟨.transpose, 2, 0, 0, some 1, none⟩
            (⟨.transpose, 2, 0, 0, some 1, none⟩ : Pipeline).current_framebuffer =
          BufState.Idle ∧
        (⟨.transpose, 2, 0, 0, some 1, none⟩ : Pipeline).dma ≠
          some (⟨.transpose, 2, 0, 0, some 1, none⟩ : Pipeline).current_framebuffer ∧
        (⟨.transpose, 2, 0, 0, some 1, none⟩ : Pipeline).alarm ≠
          some (⟨.transpose, 2, 0, 0, some 1, none⟩ : Pipeline).current_framebuffer) :=
  ⟨by decide,
    buffer_safety
      [Event.main, Event.main, Event.main, Event.main, Event.main,
        Event.dma_complete, Event.reset_delay_complete, Event.main, Event.main, Event.main]
      ⟨.transpose, 2, 0, 0, some 1, none⟩ (by decide) rfl⟩

end MusicalLeds
